import Mathlib

/-!
Verification development for the DealSpy offer-discovery service.

The Python sources under `app/services` are shallowly embedded below:
pure functions become Lean functions over `List Char`/`String`, prices are
modelled as exact rationals (the Python floats in scope are small decimal
amounts whose ordering the binary doubles preserve), dictionaries become
association lists, and the network/HTML collaborators (Tavily URL
resolution, HTTP fetch, BeautifulSoup queries) are parameters of the
pipeline definitions, so every theorem quantifies over their behaviour.
Regular expressions from the source are embedded as explicit character
scanners with Python `re` semantics (word boundaries, leftmost match,
case-insensitivity); `\w` and lowercasing are modelled for ASCII text,
which covers every string the source patterns are applied to.
-/

namespace DealSpy

/-! ### Basic text utilities (Python `str` operations on ASCII text) -/

/-- ASCII lowercasing, as Python `str.lower` acts on ASCII characters. -/
def lowerChar (c : Char) : Char :=
  if 'A' ≤ c ∧ c ≤ 'Z' then Char.ofNat (c.toNat + 32) else c

def lowerList (l : List Char) : List Char := l.map lowerChar

def lowerStr (s : String) : String := ⟨lowerList s.data⟩

/-- Python `\s` (ASCII part). -/
def isSpaceChar (c : Char) : Bool :=
  c = ' ' ∨ c = '\t' ∨ c = '\n' ∨ c = '\r' ∨ c = '\x0b' ∨ c = '\x0c'

/-- Python `\w` (ASCII part): letters, digits, underscore. -/
def isWordChar (c : Char) : Bool := c.isAlpha ∨ c.isDigit ∨ c = '_'

/-- Substring containment on character lists (Python `in` on `str`). -/
def containsSubList (hay pat : List Char) : Bool :=
  match hay with
  | [] => pat = []
  | _ :: t => pat.isPrefixOf hay || containsSubList t pat

/-- Python `pat in s` substring test. -/
def containsSub (s pat : String) : Bool := containsSubList s.data pat.data

/-- Strip a given character from both ends (Python `str.strip("/")`). -/
def trimChar (c : Char) (l : List Char) : List Char :=
  ((l.dropWhile (· = c)).reverse.dropWhile (· = c)).reverse

/-- Python `str.strip()`: whitespace off both ends. -/
def pyStrip (s : String) : String :=
  ⟨((s.data.dropWhile isSpaceChar).reverse.dropWhile isSpaceChar).reverse⟩

/-- Python `str.startswith`. -/
def pyStartsWith (s pre : String) : Bool := pre.data.isPrefixOf s.data

/-- Python `host.replace("www.", "")`: delete every non-overlapping
occurrence, scanning left to right. -/
def stripWww : List Char → List Char
  | 'w' :: 'w' :: 'w' :: '.' :: r => stripWww r
  | c :: r => c :: stripWww r
  | [] => []

/-- Split a character list at every occurrence of `c` (Python `str.split(".")`):
always returns at least one (possibly empty) part. -/
def splitOnChar (c : Char) : List Char → List (List Char)
  | [] => [[]]
  | x :: r =>
    if x = c then [] :: splitOnChar c r
    else
      match splitOnChar c r with
      | p :: ps => (x :: p) :: ps
      | [] => [[x]]

/-- Python no-argument `str.split()`: split on whitespace runs, dropping empties. -/
def splitWsList : List Char → List (List Char)
  | [] => []
  | c :: r =>
    if isSpaceChar c then splitWsList r
    else
      match splitWsList r with
      | [] => [[c]]
      | p :: ps =>
        match r with
        | [] => [[c]]
        | c' :: _ => if isSpaceChar c' then [c] :: p :: ps else (c :: p) :: ps

/-- Numeric value of a digit string (Python `float` of an all-digit string,
leading zeros allowed). -/
def natDigitsVal (l : List Char) : ℕ :=
  l.foldl (fun n c => n * 10 + (c.toNat - '0'.toNat)) 0

/-- Python `str.isdigit()` on ASCII: nonempty and all digits. -/
def strIsDigit (l : List Char) : Bool := l ≠ [] ∧ l.all (·.isDigit)

/-! ### Word-boundary regular-expression machinery

The guard patterns in `app/services/product_guards.py` and the keyword
patterns in `app/services/search.py` all have the shape
`\b lit₁ sep lit₂ … \b` with optional plural/`(ished|)` groups and
`\s*`/`[-\s]*` separators.  They are embedded as token lists matched with
full backtracking, so the Boolean search result agrees with Python
`re.search`. All those patterns are compiled with `re.I`; callers below
lowercase the text (patterns are written lowercase). -/

inductive RTok where
  | lit : String → RTok
  | optS : RTok
  | optLit : String → RTok
  | wsStar : RTok
  | dashWsStar : RTok

/-- Split points available to a greedy-with-backtracking `\s*`. -/
def wsRems : List Char → List (List Char)
  | [] => [[]]
  | c :: r => if isSpaceChar c then (c :: r) :: wsRems r else [c :: r]

/-- Split points available to `[-\s]*`. -/
def dashWsRems : List Char → List (List Char)
  | [] => [[]]
  | c :: r =>
    if isSpaceChar c ∨ c = '-' then (c :: r) :: dashWsRems r else [c :: r]

/-- All possible remainders after consuming one token (backtracking set). -/
def consumeTok : RTok → List Char → List (List Char)
  | .lit s, l => if s.data.isPrefixOf l then [l.drop s.data.length] else []
  | .optS, l =>
    match l with
    | 's' :: r => [r, 's' :: r]
    | _ => [l]
  | .optLit s, l =>
    if s.data.isPrefixOf l then [l.drop s.data.length, l] else [l]
  | .wsStar, l => wsRems l
  | .dashWsStar, l => dashWsRems l

/-- Is there a word boundary before the next character of `l`?  (All our
patterns end in a word character, so the trailing `\b` holds iff `l` is empty
or starts with a non-word character.) -/
def endBoundary (l : List Char) : Bool :=
  match l with
  | [] => true
  | c :: _ => ¬ isWordChar c

def matchToks : List RTok → List Char → Bool
  | [], l => endBoundary l
  | t :: ts, l => (consumeTok t l).any (matchToks ts)

/-- Word boundary before the match position (all our patterns begin with a
word character, so the leading `\b` holds iff the previous character, when
present, is a non-word character). -/
def begBoundary (prev : Option Char) : Bool :=
  match prev with
  | none => true
  | some c => ¬ isWordChar c

def rxSearchAux (toks : List RTok) : Option Char → List Char → Bool
  | prev, l =>
    (begBoundary prev && matchToks toks l) ||
      match l with
      | [] => false
      | c :: r => rxSearchAux toks (some c) r

/-- Python `re.search` for a `\b…\b` pattern (`re.I`): search on the
lowercased text. -/
def rxSearch (toks : List RTok) (s : String) : Bool :=
  rxSearchAux toks none (lowerList s.data)

/-- Python `re.sub(r"\b w \b", "", text)`: delete every non-overlapping
whole-word occurrence of the (nonempty, lowercase) word `w`, scanning left to
right. Used by `_extract_core_product_terms`. -/
def removeWordAux (w0 : Char) (wr : List Char) :
    Option Char → ℕ → List Char → List Char
  | _, _, [] => []
  | _, skip + 1, c :: r =>
    -- inside an already-matched (deleted) occurrence: drop `skip` more chars
    removeWordAux w0 wr (some c) skip r
  | prev, 0, c :: r =>
    if begBoundary prev && (w0 :: wr).isPrefixOf (c :: r) &&
        endBoundary ((c :: r).drop (wr.length + 1)) then
      removeWordAux w0 wr (some c) wr.length r
    else
      c :: removeWordAux w0 wr (some c) 0 r

def removeWord (w : String) (l : List Char) : List Char :=
  match w.data with
  | [] => l
  | c :: r => removeWordAux c r none 0 l

/-! ### `app/services/price_utils.py` -/

/-- Model of the Python values that flow into the price parser: `None`,
numbers (`int`/`float`/`bool`, collapsed to an exact rational since every
amount in scope is a small decimal), and strings. -/
inductive PVal where
  | pnone : PVal
  | pnum : ℚ → PVal
  | pstr : String → PVal
deriving DecidableEq, Repr

/-- Python truthiness on the modelled values. -/
def pvTruthy : PVal → Bool
  | .pnone => false
  | .pnum q => q ≠ 0
  | .pstr s => s ≠ ""

/-- Python `a or b`. -/
def pyOrV (a b : PVal) : PVal := if pvTruthy a then a else b

/-- The string a value contributes where the source expects `str` (`.strip()`
etc.).  A non-string here would raise `AttributeError` in the source; no
analysed input produces one. -/
def pvStrOf : PVal → String
  | .pnone => "None"
  | .pnum q => toString q
  | .pstr s => s

/-- Case-insensitive literal prefix: consume `pat` (given lowercase) from the
front of `l`, comparing lowercased. -/
def ciPref (pat : String) (l : List Char) : Option (List Char) :=
  if pat.data.isPrefixOf (lowerList (l.take pat.data.length)) then
    some (l.drop pat.data.length)
  else none

/-- After the currency marker: `\s*` then `([0-9][0-9,]*)` (group 1). -/
def digitTokenAfter (r : List Char) : Option (List Char) :=
  match r.dropWhile isSpaceChar with
  | [] => none
  | c :: rest =>
    if c.isDigit then some (c :: rest.takeWhile fun d => d.isDigit || d = ',')
    else none

/-- The `(?:₹|INR|Rs\.?)` alternation of `PRICE_RX`, anchored: the remainder
after the marker, alternatives tried in order. -/
def priceMarkerAt (l : List Char) : Option (List Char) :=
  (ciPref "₹" l).orElse fun _ =>
    (ciPref "inr" l).orElse fun _ =>
      (ciPref "rs" l).map fun r =>
        match r with
        | '.' :: r2 => r2
        | _ => r

/-- Try `PRICE_RX = (?:₹|INR|Rs\.?)\s*([0-9][0-9,]*)(?:\.\d{1,2})?` (with
`re.I`) anchored at the start of `l`; return the text of group 1. -/
def priceRxMatchAt (l : List Char) : Option (List Char) :=
  match priceMarkerAt l with
  | none => none
  | some r => digitTokenAfter r

/-- `PRICE_RX.search`: leftmost match, returning group 1. -/
def priceRxSearch : List Char → Option (List Char)
  | [] => none
  | c :: r => (priceRxMatchAt (c :: r)).orElse fun _ => priceRxSearch r

/-- Python `float` on a string made only of digits and dots (the result of
`re.sub(r"[^\d.]", "", s)`): valid iff there is at most one dot and at least
one digit. -/
def parseFloatDigits (l : List Char) : Option ℚ :=
  match splitOnChar '.' l with
  | [ip] => some (natDigitsVal ip)
  | [ip, fp] =>
    if ip = [] ∧ fp = [] then none
    else some ((natDigitsVal ip : ℚ) + (natDigitsVal fp : ℚ) / (10 : ℚ) ^ fp.length)
  | _ => none

/-- `parse_price_loose` from `app/services/price_utils.py`.  Every Python
failure path (no match, unparsable remainder) is the `none` result; the
function never raises. -/
def parse_price_loose : PVal → Option ℚ
  | .pnone => none
  | .pnum q => some q
  | .pstr s =>
    match priceRxSearch s.data with
    | some g => some (natDigitsVal (g.filter (· ≠ ',')))
    | none =>
      let digits := s.data.filter fun c => c.isDigit || c = '.'
      if digits = [] then none else parseFloatDigits digits

/-- `min_expected_price_for_query`: the 30000 floor exactly when the lowercased
query contains the literal substring `"iphone 15"`. -/
def min_expected_price_for_query (query : String) : Option ℚ :=
  if containsSub (lowerStr query) "iphone 15" then some 30000 else none

/-- `parse_price_strict`. -/
def parse_price_strict (value : PVal) (min_floor : Option ℚ) : Option ℚ :=
  match parse_price_loose value with
  | none => none
  | some amt =>
    match min_floor with
    | some f => if amt < f then none else some amt
    | none => some amt

/-! ### `app/services/product_guards.py` -/

/-- `ACCESSORY_NEGATIVE`, one token list per compiled pattern, in source
order. -/
def accessoryNegative : List (List RTok) :=
  [ [.lit "case", .optS],
    [.lit "cover", .optS],
    [.lit "silicone"],
    [.lit "bumper"],
    [.lit "back", .wsStar, .lit "cover"],
    [.lit "tempered"],
    [.lit "screen", .wsStar, .lit "protector"],
    [.lit "glass"],
    [.lit "charger", .optS],
    [.lit "power", .wsStar, .lit "bank", .optS],
    [.lit "cable", .optS],
    [.lit "adapter", .optS],
    [.lit "earbud", .optS],
    [.lit "headphone", .optS],
    [.lit "neckband"],
    [.lit "strap", .optS],
    [.lit "stand", .optS],
    [.lit "car", .wsStar, .lit "mount"],
    [.lit "magsafe"],
    [.lit "wallet"] ]

/-- `NEGATIVE_VARIANTS`. -/
def negativeVariants : List (List RTok) :=
  [ [.lit "pro", .wsStar, .lit "max"],
    [.lit "pro"],
    [.lit "plus"],
    [.lit "max"] ]

/-- `POSITIVE_IPHONE15`. -/
def positiveIphone15 : List (List RTok) :=
  [ [.lit "iphone", .wsStar, .lit "15"] ]

/-- `RENEWED_WORDS`. -/
def renewedWords : List (List RTok) :=
  [ [.lit "renewed"],
    [.lit "refurb", .optLit "ished"],
    [.lit "pre", .dashWsStar, .lit "owned"] ]

/-- `looks_like_accessory` (`text or ""` then any accessory pattern). -/
def looks_like_accessory (text : String) : Bool :=
  accessoryNegative.any fun rx => rxSearch rx text

def query_targets_iphone15 (query : String) : Bool :=
  positiveIphone15.any fun rx => rxSearch rx query

/-- `is_correct_variant`: the name must mention the iPhone 15 model; if the
query did not ask for a Pro/Plus/Max variant, names carrying one are
rejected. -/
def is_correct_variant (product_name query : String) : Bool :=
  if ¬ positiveIphone15.any (fun rx => rxSearch rx product_name) then false
  else
    let asked_variant := negativeVariants.any fun rx => rxSearch rx query
    if ¬ asked_variant ∧ negativeVariants.any (fun rx => rxSearch rx product_name)
    then false
    else true

/-- `is_phone_category`: substring (not word-boundary) checks on the lowered
text. -/
def is_phone_category (category_text : String) : Bool :=
  ["mobile", "smartphone", "cell phone", "mobile phone"].any fun k =>
    containsSub (lowerStr category_text) k

/-- `validate_query`: `(ok, reason)`. -/
def validate_query (query : String) : Bool × String :=
  if looks_like_accessory query then (false, "query_is_accessory")
  else if ¬ query_targets_iphone15 query then (false, "query_missing_model_keyword")
  else (true, "")

def is_renewed (text : String) : Bool :=
  renewedWords.any fun rx => rxSearch rx text

def query_allows_renewed (query : String) : Bool := is_renewed query

/-! ### `urllib.parse.urlparse` (restricted to the URL shapes in scope) -/

structure UrlParts where
  scheme : String
  netloc : String
  path : String
  query : String
deriving DecidableEq, Repr

def isSchemeChar (c : Char) : Bool :=
  c.isAlpha ∨ c.isDigit ∨ c = '+' ∨ c = '-' ∨ c = '.'

/-- Split at the first occurrence of `c`: `(before, after?)`. -/
def splitFirst (c : Char) : List Char → List Char × Option (List Char)
  | [] => ([], none)
  | x :: r =>
    if x = c then ([], some r)
    else
      let (b, a) := splitFirst c r
      (x :: b, a)

/-- `urlparse`: fragment split first, then scheme (a leading
letter-then-scheme-chars prefix before `:`), then `//netloc` up to the next
`/`, `?` or `#`, then path up to `?`. -/
def urlparse (url : String) : UrlParts :=
  let (rest, _frag) := splitFirst '#' url.data
  let (scheme, rest) :=
    match splitFirst ':' rest with
    | (pre, some post) =>
      if pre ≠ [] ∧ (pre.headD 'a').isAlpha ∧ pre.all isSchemeChar
      then (lowerList pre, post) else ([], rest)
    | (_, none) => ([], rest)
  let (netloc, rest) :=
    match rest with
    | '/' :: '/' :: r =>
      let nl := r.takeWhile fun c => c ≠ '/' ∧ c ≠ '?'
      (nl, r.drop nl.length)
    | r => ([], r)
  let (path, query) := splitFirst '?' rest
  ⟨⟨scheme⟩, ⟨netloc⟩, ⟨path⟩, ⟨query.getD []⟩⟩

/-! ### `app/services/pdp_url_rules.py`

The module defines `is_probable_pdp` twice; Python keeps the second
definition, which is the one embedded here. -/

def is_probable_pdp (url : String) : Bool :=
  if url = "" then false
  else
    let u := urlparse url
    let host := lowerStr u.netloc
    let path := lowerStr u.path
    let query := lowerStr u.query
    if ["/search", "/s", "/catalog", "/browse", "/category",
        "/collections", "/results", "/product-reviews"].any
        (fun k => containsSub path k) then false
    else if ["q=", "query=", "search="].any (fun k => containsSub query k) then
      false
    else if containsSub host "amazon." then
      containsSub path "/dp/" || containsSub path "/gp/product/"
    else if containsSub host "flipkart." then
      pyStartsWith path "/p/itm" || containsSub path "/p/"
    else if containsSub host "reliancedigital." then pyStartsWith path "/p/"
    else if containsSub host "croma." then pyStartsWith path "/p/"
    else if containsSub host "vijaysales." then containsSub path "/product/"
    else if containsSub host "apple." then containsSub path "/shop/buy-iphone/"
    else (splitOnChar '/' (trimChar '/' path.data)).any strIsDigit

/-! ### `app/services/extract_mistral.py`

BeautifulSoup parsing is the unembeddable boundary: a `Soup` records what the
source's fixed queries against the parsed page return (script payloads,
meta/link attributes, selector hits, title).  Everything the module computes
from those answers is embedded exactly. -/

/-- Parsed JSON values (the result of `json.loads`). -/
inductive JVal where
  | jnull : JVal
  | jbool : Bool → JVal
  | jnum : ℚ → JVal
  | jstr : String → JVal
  | jarr : List JVal → JVal
  | jobj : List (String × JVal) → JVal

/-- Python truthiness of a JSON value. -/
def jTruthy : JVal → Bool
  | .jnull => false
  | .jbool b => b
  | .jnum q => q ≠ 0
  | .jstr s => s ≠ ""
  | .jarr l => !l.isEmpty
  | .jobj l => !l.isEmpty

/-- `dict.get` on a JSON object (first binding wins, as parsed dicts have
unique keys). -/
def jGet (kvs : List (String × JVal)) (k : String) : Option JVal :=
  (kvs.find? (·.1 = k)).map (·.2)

mutual

/-- Python `str(...)` of a JSON value (`repr` for containers).  Float `repr`
is approximated by the rational's decimal text; no analysed input takes the
container or float path. -/
def pyReprJ : JVal → String
  | .jnull => "None"
  | .jbool b => if b then "True" else "False"
  | .jnum q => toString q
  | .jstr s => "\x27" ++ s ++ "\x27"
  | .jarr l => "[" ++ String.intercalate ", " (pyReprJList l) ++ "]"
  | .jobj kvs =>
    "\x7b" ++ String.intercalate ", " (pyReprJKVs kvs) ++ "\x7d"

def pyReprJList : List JVal → List String
  | [] => []
  | v :: r => pyReprJ v :: pyReprJList r

def pyReprJKVs : List (String × JVal) → List String
  | [] => []
  | (k, v) :: r => ("\x27" ++ k ++ "\x27: " ++ pyReprJ v) :: pyReprJKVs r

end

/-- The Python value stored into the output dict for a JSON value.  The
source stores the object itself; containers are kept as their `str()` text,
which is exactly what the downstream price parser sees (`str(value)`). -/
def jvalToPVal : JVal → PVal
  | .jnull => .pnone
  | .jbool b => .pnum (if b then 1 else 0)
  | .jnum q => .pnum q
  | .jstr s => .pstr s
  | v => .pstr (pyReprJ v)

/-- `str(typ)` after the `" ".join` step for list-typed `@type` (joining a
non-string member raises in the source; such members contribute their text
here). -/
def typeString (typ : JVal) : String :=
  match typ with
  | .jarr [] => pyReprJ (.jarr [])
  | .jarr l =>
    String.intercalate " " (l.map fun v => match v with | .jstr s => s | w => pyReprJ w)
  | .jstr s => s
  | v => pyReprJ v

/-- Python `a or b` on optional JSON values (`dict.get` results). -/
def jOrOpt (a b : Option JVal) : Option JVal :=
  if (a.map jTruthy).getD false then a else b

/-- `offers.get("priceSpecification", {}).get("price")` (a non-dict, truthy
`priceSpecification` would raise in the source). -/
def priceSpecPrice (offs : List (String × JVal)) : Option JVal :=
  match jGet offs "priceSpecification" with
  | some (.jobj ps) => jGet ps "price"
  | _ => none

/-- An offer's contribution to `vals` in the list-of-offers branch. -/
def offerPrice (o : JVal) : Option JVal :=
  match o with
  | .jobj od =>
    let p := jOrOpt (jGet od "price")
      (match jGet od "priceSpecification" with
       | some ps => if jTruthy ps then
           (match ps with | .jobj psd => jGet psd "price" | _ => none)
         else none
       | none => none)
    if (p.map jTruthy).getD false then p else none
  | _ => none

/-- Python `min` over the collected offer prices: numbers by value, strings
lexicographically, first minimum wins (`<` scan).  A mixed list raises
`TypeError` in the source; here mixed comparisons return `false`. -/
def jLt : JVal → JVal → Bool
  | .jnum a, .jnum b => a < b
  | .jstr a, .jstr b => a < b
  | _, _ => false

def jMinList (c : JVal) (l : List JVal) : JVal :=
  l.foldl (fun m x => if jLt x m then x else m) c

/-- Association-list model of a Python `dict` (insertion-ordered). -/
abbrev PyDict := List (String × PVal)

def dGet (d : PyDict) (k : String) : Option PVal :=
  (d.find? (·.1 = k)).map (·.2)

/-- `d[k] = v`: overwrite in place if present, else append. -/
def dSet (d : PyDict) (k : String) (v : PVal) : PyDict :=
  if (d.find? (·.1 = k)).isSome then
    d.map fun kv => if kv.1 = k then (k, v) else kv
  else d ++ [(k, v)]

/-- `d.setdefault(k, v)`. -/
def dSetdefault (d : PyDict) (k : String) (v : PVal) : PyDict :=
  if (d.find? (·.1 = k)).isSome then d else d ++ [(k, v)]

/-- `d.update(e)` for `e` with unique keys (our tier outputs). -/
def dUpdate (d e : PyDict) : PyDict :=
  e.foldl (fun acc kv => dSet acc kv.1 kv.2) d

/-- The fixed selector list of `_fallback_visible_price`, for reference. -/
def visibleSelectors : List String :=
  [ "[id*=priceblock_dealprice]",
    "[id*=priceblock_ourprice]",
    "[id*=corePrice_feature_div]",
    "[class*=price] [class*=final]",
    "[class*=our-price]",
    "[class*=offer-price]",
    "[data-testid*=price]",
    "[data-test*=price]" ]

/-- What the parsed page answers to the module's fixed queries. -/
structure Soup where
  /-- `script type="application/ld+json"` payloads in document order;
  `none` stands for an empty or unparsable payload (skipped by the source). -/
  ldjson : List (Option JVal)
  /-- `meta property="og:url"` content attribute, when the tag exists. -/
  ogUrl : Option String
  /-- canonical `link` href attribute, when the tag exists. -/
  canonicalHref : Option String
  /-- `meta property="og:title"` content attribute, when the tag exists. -/
  ogTitle : Option String
  /-- joined breadcrumb text, when breadcrumb containers exist. -/
  breadcrumbJoined : Option String
  /-- stripped text of the first hit of each selector in `visibleSelectors`,
  position-aligned with that list (`none` = no element). -/
  selTexts : List (Option String)
  /-- `soup.title.string`, when present. -/
  titleString : Option String

/-- One structured-data node's effect on the accumulating dict
(`_jsonld_offers_price` loop body). -/
def jsonldNodeStep (out : PyDict) (node : JVal) : PyDict :=
  match node with
  | .jobj kvs =>
    let typ := (jGet kvs "@type").getD (.jstr "")
    if ["product", "mobilephone", "thing"].any
        (fun t => containsSub (lowerStr (typeString typ)) t) then
      let out :=
        match jGet kvs "name" with
        | some nv => if jTruthy nv then dSet out "product_name" (jvalToPVal nv) else out
        | none => out
      match jGet kvs "offers" with
      | some (.jobj offs) =>
        let p := jOrOpt (jGet offs "price") (priceSpecPrice offs)
        if (p.map jTruthy).getD false then
          dSet out "price_value" (jvalToPVal (p.getD .jnull))
        else out
      | some (.jarr loffs) =>
        let vals := (loffs.filterMap offerPrice)
        match vals with
        | [] => out
        | v :: vs => dSet out "price_value" (jvalToPVal (jMinList v vs))
      | _ => out
    else out
  | _ => out

/-- `_jsonld_offers_price`. -/
def jsonldOffersPrice (soup : Soup) : PyDict :=
  soup.ldjson.foldl
    (fun out sc =>
      match sc with
      | none => out
      | some data =>
        let nodes := match data with | .jarr l => l | v => [v]
        nodes.foldl jsonldNodeStep out)
    []

/-- `_meta_urls_name_category`. -/
def metaUrlsNameCategory (soup : Soup) : PyDict :=
  let out : PyDict := []
  let out := match soup.ogUrl with
    | some c => if c ≠ "" then dSet out "og_url" (.pstr c) else out
    | none => out
  let out := match soup.canonicalHref with
    | some h => if h ≠ "" then dSet out "canonical_url" (.pstr h) else out
    | none => out
  let out := match soup.ogTitle with
    | some c => if c ≠ "" then dSet out "product_name" (.pstr c) else out
    | none => out
  match soup.breadcrumbJoined with
  | some j => dSet out "breadcrumbs" (.pstr j)
  | none => out

/-- `_fallback_visible_price`: first selector hit with nonempty text. -/
def fallbackVisiblePrice (soup : Soup) : PyDict :=
  match soup.selTexts.findSome?
      (fun t? => match t? with
        | some t => if t ≠ "" then some t else none
        | none => none) with
  | some t => [("price_value", .pstr t)]
  | none => []

/-- Tiers 2 then 1 of `extract_from_html`: seed `deep_link`, apply the
metadata tier with `update`, then the structured-data tier with
`setdefault` (filling only unset fields). -/
def extractMid (soup : Soup) (url : String) : PyDict :=
  (jsonldOffersPrice soup).foldl (fun o kv => dSetdefault o kv.1 kv.2)
    (dUpdate [("deep_link", .pstr url)] (metaUrlsNameCategory soup))

/-- Tier 3: the visible-price scan, consulted only when no truthy price was
set. -/
def extractPriced (soup : Soup) (url : String) : PyDict :=
  let out := extractMid soup url
  let needPrice : Bool :=
    match dGet out "price_value" with
    | none => true
    | some v => v == .pnone || v == .pstr ""
  if needPrice then dUpdate out (fallbackVisiblePrice soup) else out

/-- `extract_from_html`: the metadata tier is applied first (plain `update`),
then structured data via `setdefault`, then the visible-price scan when no
truthy price was set, then the title fallback when no truthy name was set. -/
def extract_from_html (soup : Soup) (url : String) : PyDict :=
  let out := extractPriced soup url
  let needName : Bool :=
    match dGet out "product_name" with
    | none => true
    | some v => !pvTruthy v
  if needName then
    match soup.titleString with
    | some t => if t ≠ "" then dSet out "product_name" (.pstr (pyStrip t)) else out
    | none => out
  else out

/-! ### `app/services/preview_search.py` -/

/-- An accepted offer candidate `(domain, price, deeplink)`. -/
abbrev Cand := String × ℚ × String

/-- `_choose_lowest` = Python `min(key=price)`: left fold replacing the best
only on strictly smaller price, so the first minimum wins ties. -/
def chooseLowest : List Cand → Option Cand
  | [] => none
  | c :: r => some (r.foldl (fun b x => if x.2.1 < b.2.1 then x else b) c)

/-- One per-domain diagnostic dict (absent keys are `none`). -/
structure Detail where
  domain : String
  status : String
  url : Option String := none
  name : Option String := none
  price : Option ℚ := none
  category : Option String := none
deriving DecidableEq, Repr

/-- The structured result dict of `preview_lowest_by_name` (absent keys are
`none`). -/
structure PreviewResult where
  query : String
  status : String
  message : Option String := none
  product_name : Option String := none
  selected_domain : Option String := none
  currentPrice : Option ℚ := none
  deepLink : Option String := none
  details : List Detail := []
deriving DecidableEq, Repr

/-- The external collaborators and configuration of the pipeline: Tavily URL
resolution, the HTTP fetcher, the search-page→PDP anchor scan and the
HTML extractor (both of which parse raw HTML), and the env-driven domain
list.  Modelling them as functions makes each run deterministic, which is
how the spec treats repeated discovery over fixed responses. -/
structure PreviewEnv where
  defaultDomains : List String
  resolve : String → String → Option String
  fetch : String → ℕ × String
  findPdp : String → String → String → Option String
  extract : String → String → PyDict

/-- Keys of a Python dict built by inserting `domains` in order: first
occurrence wins the position (later duplicates only overwrite the value). -/
def dedupFirst : List String → List String
  | [] => []
  | d :: r => d :: (dedupFirst r).filter (· ≠ d)

/-- `resolve_urls_all_sites` as consumed by `.items()`: one `(domain, url?)`
pair per distinct domain, in first-occurrence order. -/
def resolveUrlsAllSites (env : PreviewEnv) (query : String)
    (domains : List String) : List (String × Option String) :=
  (dedupFirst domains).map fun d => (d, env.resolve query d)

/-- Steps 3 of the per-domain loop: decide the PDP URL to fetch, converting
a non-PDP page through one fetch and the search-page anchor scan; a failure
is the diagnostic to record. -/
def pdpTarget (env : PreviewEnv) (domain u0 : String) : Detail ⊕ String :=
  if is_probable_pdp u0 then .inr u0
  else
    let (code, html) := env.fetch u0
    if code = 200 ∧ html ≠ "" then
      match env.findPdp domain html u0 with
      | some cand =>
        if is_probable_pdp cand then .inr cand
        else .inl { domain, status := "not_pdp_url", url := some u0 }
      | none => .inl { domain, status := "not_pdp_url", url := some u0 }
    else .inl { domain, status := "http_" ++ toString code, url := some u0 }

/-- Steps 5–7 of the per-domain loop, after a successful PDP fetch: link and
field assembly, strict price parse, guards in order, candidate collection. -/
def fetchedStep (query : String) (floor? : Option ℚ) (domain url : String)
    (data : PyDict) : Option Cand × Detail × Option String :=
  let link := pvStrOf (pyOrV (pyOrV (pyOrV
    ((dGet data "canonical_url").getD .pnone)
    ((dGet data "og_url").getD .pnone))
    ((dGet data "deep_link").getD .pnone)) (.pstr url))
  let name := pyStrip (pvStrOf (pyOrV (pyOrV
    ((dGet data "product_name").getD .pnone)
    ((dGet data "title").getD .pnone)) (.pstr "")))
  let category := pyStrip (pvStrOf (pyOrV (pyOrV
    ((dGet data "breadcrumbs").getD .pnone)
    ((dGet data "category").getD .pnone)) (.pstr "")))
  let rawPrice := pyOrV (pyOrV
    ((dGet data "price_value").getD .pnone)
    ((dGet data "price").getD .pnone))
    ((dGet data "offer_price").getD .pnone)
  let price := parse_price_strict rawPrice floor?
  let nameSeen := if name = "" then none else some name
  if looks_like_accessory name then
    (none, { domain, status := "rejected_accessory", url := some link,
             name := some name }, nameSeen)
  else if ¬ is_correct_variant name query then
    (none, { domain, status := "variant_mismatch", url := some link,
             name := some name }, nameSeen)
  else if category ≠ "" ∧ ¬ is_phone_category category then
    (none, { domain, status := "category_mismatch", url := some link,
             name := some name, category := some category }, nameSeen)
  else
    match price with
    | none =>
      (none, { domain, status := "no_price", url := some link,
               name := some name }, nameSeen)
    | some p =>
      (some (domain, p, link),
       { domain, status := "ok", url := some link, name := some name,
         price := some p }, nameSeen)

/-- The per-domain loop body: either an accepted candidate or a failure
diagnostic, plus the nonempty extracted name when extraction was reached
(feeding the `sample_name` fold). -/
def stepDomain (env : PreviewEnv) (query : String) (floor? : Option ℚ)
    (domain : String) (url? : Option String) :
    Option Cand × Detail × Option String :=
  match url? with
  | none => (none, { domain, status := "no_url" }, none)
  | some u0 =>
    if u0 = "" then (none, { domain, status := "no_url" }, none)
    else
      match pdpTarget env domain u0 with
      | .inl d => (none, d, none)
      | .inr url =>
        let (code, html) := env.fetch url
        if code ≠ 200 ∨ html = "" then
          (none, { domain, status := "http_" ++ toString code, url := some url },
           none)
        else fetchedStep query floor? domain url (env.extract html url)

/-- The whole per-domain loop: collected candidates, diagnostics in iteration
order, and the first nonempty extracted name (`sample_name`). -/
def scanDomains (env : PreviewEnv) (query : String) (floor? : Option ℚ) :
    List (String × Option String) → List Cand × List Detail × Option String
  | [] => ([], [], none)
  | (d, u) :: rest =>
    let (c?, det, nm) := stepDomain env query floor? d u
    let (cs, ds, s) := scanDomains env query floor? rest
    ((match c? with | some c => c :: cs | none => cs), det :: ds, nm <|> s)

/-- `domains = domains or get_india_domains()` (empty list and `None` are
falsy). -/
def effectiveDomains (env : PreviewEnv) : Option (List String) → List String
  | some l => if l = [] then env.defaultDomains else l
  | none => env.defaultDomains

/-- The candidate pool, diagnostics and sample name of one validated
discovery call. -/
def previewCore (env : PreviewEnv) (query : String)
    (domains? : Option (List String)) : List Cand × List Detail × Option String :=
  scanDomains env query (min_expected_price_for_query query)
    (resolveUrlsAllSites env query (effectiveDomains env domains?))

/-- `preview_lowest_by_name`. -/
def preview_lowest_by_name (env : PreviewEnv) (query : String)
    (domains? : Option (List String)) : PreviewResult :=
  let (ok, reason) := validate_query query
  if ¬ ok then
    { query, status := reason,
      message := some (if reason = "query_is_accessory" then
        "Your query looks like an accessory. Please search a phone model (e.g., \x27iPhone 15 128GB\x27)."
      else "Please include the phone model name (e.g., \x27iPhone 15\x27)."),
      details := [] }
  else
    let (found, details, sample) := previewCore env query domains?
    match chooseLowest found with
    | none =>
      { query, status := "no_deal",
        message := some "Can\x27t find a better deal right now.",
        product_name := sample, details }
    | some best =>
      { query, status := "ok", product_name := sample,
        selected_domain := some best.1, currentPrice := some best.2.1,
        deepLink := some best.2.2, details }

/-! ### Price-update flows (`app/services/update_product.py`, `app/services/update.py`) -/

/-- The persisted product fields the update flows touch (`app/models/product.py`:
`currentPrice`/`lastLowestPrice`/`isPriceDropped`/`deepLink`/`imageUrl` map to
the snake_case columns). -/
structure ProductRow where
  currentPrice : Option ℚ := none
  lastLowestPrice : Option ℚ := none
  isPriceDropped : Option Bool := none
  deepLink : Option String := none
  imageUrl : Option String := none
  platform : Option String := none
deriving DecidableEq, Repr

/-- The field assignments of `update_single_product_lowest`
(`update_product.py` lines 84–99) once today's best `(price, link)` is
chosen: `isPriceDropped := best < previous currentPrice`, `lastLowestPrice`
keeps the previous `currentPrice`. -/
def applySingleUpdate (p : ProductRow) (bestPrice : ℚ) (bestLink : String) :
    ProductRow :=
  let oldPrice := p.currentPrice
  let p := { p with currentPrice := some bestPrice, deepLink := some bestLink }
  match oldPrice with
  | none => { p with isPriceDropped := some false, lastLowestPrice := some bestPrice }
  | some old =>
    { p with isPriceDropped := some (decide (bestPrice < old)),
             lastLowestPrice := some old }

/-- `getattr` for the optional-price attributes of the mapped `Product`
class (`app/models/product.py`): it defines `currentPrice` and
`lastLowestPrice` (mapped to the snake_case *columns* `current_price` and
`last_lowest_price`, which SQLAlchemy does not expose as attributes).  Any
other name — in particular the snake_case names — raises `AttributeError`,
modelled as `none`. -/
def productPriceAttr (p : ProductRow) (attr : String) : Option (Option ℚ) :=
  if attr = "currentPrice" then some p.currentPrice
  else if attr = "lastLowestPrice" then some p.lastLowestPrice
  else none

/-- The per-product update of `update_product_lowest_price` and of the batch
`refresh_all_products_lowest_prices` (`update.py` lines 164–180 and 228–244).
Its first statement is `old_last_lowest = product.last_lowest_price`, reading
an attribute the mapped `Product` class does not define, so the flow raises
`AttributeError` there (`none`) and never reaches its assignments; the
remainder transcribes those (unreachable) assignments, which would compare
today's price with the stored *last lowest* price. -/
def applyRefreshUpdate (p : ProductRow) (newPrice : ℚ) (imageUrl : Option String)
    (deepLink platform : String) : Option ProductRow :=
  match productPriceAttr p "last_lowest_price" with
  | none => none
  | some oldLastLowest =>
    let p := { p with currentPrice := some newPrice }
    let p :=
      match oldLastLowest with
      | none =>
        { p with lastLowestPrice := some newPrice, isPriceDropped := some false }
      | some old =>
        if newPrice < old then
          { p with lastLowestPrice := some newPrice, isPriceDropped := some true }
        else { p with isPriceDropped := some false }
    some { p with imageUrl := imageUrl, deepLink := some deepLink,
                  platform := some platform }

/-! ### `app/services/search.py` (multi-offer aggregator) -/

/-- `PRICE_PATTERNS`, embedded one by one.  Each is `marker\s*(num)` or
`(num)\s*INR` with `num = [0-9][0-9,]*(?:\.[0-9]{2})?` and the decimals
captured inside the group. -/
def numTokenAt (l : List Char) : Option (List Char) :=
  match l with
  | [] => none
  | c :: rest =>
    if c.isDigit then
      let core := rest.takeWhile fun d => d.isDigit || d = ','
      let rest2 := rest.drop core.length
      match rest2 with
      | '.' :: d1 :: d2 :: _ =>
        if d1.isDigit ∧ d2.isDigit then some (c :: core ++ ['.', d1, d2])
        else some (c :: core)
      | _ => some (c :: core)
    else none

/-- `₹\s*(num)` or `$\s*(num)`, anchored. -/
def symPriceAt (sym : Char) (l : List Char) : Option (List Char) :=
  match l with
  | [] => none
  | c :: r => if c = sym then numTokenAt (r.dropWhile isSpaceChar) else none

/-- `(num)\s*INR`, anchored (case-sensitive, as in the source). -/
def inrPriceAt (l : List Char) : Option (List Char) :=
  match numTokenAt l with
  | none => none
  | some tok =>
    let rest := (l.drop tok.length).dropWhile isSpaceChar
    if ['I', 'N', 'R'].isPrefixOf rest then some tok else none

/-- `Rs\.?\s*(num)`, anchored (case-sensitive). -/
def rsPriceAt (l : List Char) : Option (List Char) :=
  match l with
  | 'R' :: 's' :: r =>
    let r := match r with | '.' :: r2 => r2 | _ => r
    numTokenAt (r.dropWhile isSpaceChar)
  | _ => none

def searchPat (patAt : List Char → Option (List Char)) :
    List Char → Option (List Char)
  | [] => none
  | c :: r => (patAt (c :: r)).orElse fun _ => searchPat patAt r

/-- `_extract_price_from_text`: the four patterns tried in order, leftmost
match of the first matching pattern, group text stripped (the group never has
surrounding whitespace, so `strip` is the identity). -/
def extractPriceFromText (text : String) : Option String :=
  if text = "" then none
  else
    match searchPat (symPriceAt '₹') text.data with
    | some t => some ⟨t⟩
    | none =>
      match searchPat (symPriceAt '$') text.data with
      | some t => some ⟨t⟩
      | none =>
        match searchPat inrPriceAt text.data with
        | some t => some ⟨t⟩
        | none =>
          match searchPat rsPriceAt text.data with
          | some t => some ⟨t⟩
          | none => none

/-- `_price_str_to_float`, helper: keep `[\d.,]`, then drop commas. -/
def priceDigits (priceStr : String) : List Char :=
  (priceStr.data.filter fun c => c.isDigit || c = '.' || c = ',').filter (· ≠ ',')

/-- `_price_str_to_float`: keep `[\d.,]`, drop commas, parse, then the sanity
range `1000 ≤ p ≤ 1000000`. -/
def priceStrToFloat (priceStr : String) : Option ℚ :=
  if priceStr = "" then none
  else if priceDigits priceStr = [] then none
  else
    match parseFloatDigits (priceDigits priceStr) with
    | none => none
    | some p => if 1000 ≤ p ∧ p ≤ 1000000 then some p else none

/-- `ALLOWED_PLATFORMS`. -/
def allowedPlatforms : List String :=
  ["amazon", "flipkart", "croma", "reliance digital", "reliancedigital",
   "myntra", "ajio", "meesho", "tatacliq", "shopclues", "pepperfry", "nykaa",
   "firstcry", "grofers"]

/-- `_platform_from_url`. -/
def platformFromUrl (url : String) : String :=
  let host : String := ⟨stripWww (lowerStr (urlparse url).netloc).data⟩
  if host = "" then "unknown"
  else if containsSub host "amazon." then "amazon"
  else if containsSub host "flipkart." then "flipkart"
  else if containsSub host "myntra." then "myntra"
  else if containsSub host "ajio." then "ajio"
  else if containsSub host "meesho." then "meesho"
  else if containsSub host "tatacliq." then "tatacliq"
  else if containsSub host "shopclues." then "shopclues"
  else if containsSub host "pepperfry." then "pepperfry"
  else if containsSub host "nykaa." then "nykaa"
  else if containsSub host "firstcry." then "firstcry"
  else if containsSub host "grofers." || containsSub host "blinkit." then "grofers"
  else if containsSub host "croma." then "croma"
  else if containsSub host "reliancedigital." || containsSub host "reliance." then
    "reliance digital"
  else ⟨(splitOnChar '.' host.data).headD []⟩

/-- `re.search(r"/[a-z0-9-]+-p-[a-z0-9]+", path)` for the Flipkart rule:
after a `/`, at least one `[a-z0-9-]` character, then `-p-`, then a
`[a-z0-9]` character (scanning every split, as the backtracking engine
does). -/
def isSlugClass1 (c : Char) : Bool :=
  ('a' ≤ c ∧ c ≤ 'z') ∨ c.isDigit ∨ c = '-'

def isSlugClass2 (c : Char) : Bool := ('a' ≤ c ∧ c ≤ 'z') ∨ c.isDigit

def fkSlugAfterSlash : List Char → Bool → Bool
  | l, seen1 =>
    (match l with
     | '-' :: 'p' :: '-' :: c :: _ => seen1 && isSlugClass2 c
     | _ => false) ||
    (match l with
     | c :: r => if isSlugClass1 c then fkSlugAfterSlash r true else false
     | [] => false)

def fkSlugSearch : List Char → Bool
  | [] => false
  | '/' :: r => fkSlugAfterSlash r false || fkSlugSearch r
  | _ :: r => fkSlugSearch r

/-- `re.search(r"/\d+/buy", path)` for the Myntra rule. -/
def myntraBuyAt : List Char → Bool
  | '/' :: r =>
    let ds := r.takeWhile (·.isDigit)
    ds ≠ [] ∧ ['/', 'b', 'u', 'y'].isPrefixOf (r.drop ds.length)
  | _ => false

def myntraBuySearch : List Char → Bool
  | [] => false
  | c :: r => myntraBuyAt (c :: r) || myntraBuySearch r

/-- `_looks_like_product_url`. -/
def looksLikeProductUrl (url : String) : Bool :=
  let u := urlparse url
  let path := lowerStr u.path
  let host := lowerStr u.netloc
  if containsSub host "amazon" then
    ["/dp/", "/gp/product/", "/product/"].any fun p => containsSub path p
  else if containsSub host "flipkart" then
    containsSub path "/p/" || fkSlugSearch path.data
  else if containsSub host "myntra" then
    containsSub path "/buy/" || myntraBuySearch path.data
  else if containsSub host "ajio" then
    containsSub path "/p/" || containsSub path "/product/"
  else if containsSub host "croma" then
    containsSub path "/p/" || containsSub path "/product/"
  else if containsSub host "reliancedigital" then
    containsSub path "/product/" || containsSub path "/pd/"
  else if ["meesho", "tatacliq", "shopclues", "pepperfry", "nykaa", "firstcry",
      "grofers", "blinkit"].any (fun p => containsSub host p) then true
  else ["/product/", "/p/", "/item/", "/dp/"].any fun p => containsSub path p

/-- `_extract_core_product_terms`: drop stop words (whole-word, on the
lowercased query), split on whitespace, keep terms of length ≥ 2.  (The
whitespace-collapsing `re.sub` before `split()` cannot change the no-argument
split's result.) -/
def searchStopWords : List String :=
  ["buy", "online", "india", "price", "best", "cheapest", "latest"]

def extractCoreProductTerms (query : String) : List String :=
  let q := (pyStrip (lowerStr query)).data
  let q := searchStopWords.foldl (fun acc w => removeWord w acc) q
  ((splitWsList q).map fun t => (⟨t⟩ : String)).filter fun t => 2 ≤ t.length

/-- `_normalize_for_match`: lowercase, keep only `[a-z0-9]`. -/
def normalizeForMatch (text : String) : List Char :=
  (lowerList text.data).filter fun c => ('a' ≤ c ∧ c ≤ 'z') ∨ c.isDigit

/-- `ACCESSORY_KEYWORDS` of `search.py` (word-boundary, literal spaces). -/
def searchAccessoryKeywords : List String :=
  ["case", "cover", "back cover", "tempered", "screen guard",
   "screen protector", "glass protector", "charger", "cable", "adapter",
   "strap", "band", "earbud", "earbuds", "earphone", "earphones", "headphone",
   "headphones", "power bank", "stand", "holder", "mount"]

/-- `_is_accessory_text`: `\b kw \b` search on the lowered text. -/
def isAccessoryText (text : String) : Bool :=
  searchAccessoryKeywords.any fun kw => rxSearch [.lit kw] text

/-- `_product_matches_query`.  The `matches/len >= 0.6` float comparison is
embedded as the exact rational comparison, which agrees with the double
arithmetic for every realistic term count. -/
def productMatchesQuery (title snippet query : String) : Bool :=
  let combined := lowerStr (title ++ " " ++ snippet)
  if isAccessoryText combined then false
  else
    let coreTerms := extractCoreProductTerms query
    if coreTerms = [] then false
    else
      let normCombined := normalizeForMatch combined
      let nMatches := coreTerms.countP fun t =>
        containsSubList normCombined (normalizeForMatch t)
      5 * nMatches ≥ 3 * coreTerms.length

/-- `KNOWN_BRANDS`. -/
def knownBrands : List String :=
  ["Apple", "Samsung", "OnePlus", "Xiaomi", "Redmi", "Realme", "Oppo", "Vivo",
   "Motorola", "Nike", "Adidas", "Puma", "Reebok", "Fila", "Sony", "LG",
   "Panasonic", "Whirlpool", "Bosch", "HP", "Dell", "Lenovo", "Asus", "Acer",
   "Levi\x27s", "H&M", "Zara", "Allen Solly", "Peter England"]

/-- `_extract_brand_from_title`.  (`\b brand \b` on the lowered title; else
the first word when it starts uppercase.) -/
def extractBrandFromTitle (title : String) : Option String :=
  if title = "" then none
  else
    match knownBrands.find? fun b => rxSearch [.lit (lowerStr b)] title with
    | some b => some b
    | none =>
      match splitWsList title.data with
      | [] => none
      | w :: _ =>
        match w with
        | [] => none
        | c :: _ => if c.isUpper then some ⟨w⟩ else none

/-- One Tavily search result as consumed by the aggregator. -/
structure SearchResult where
  url : String := ""
  title : String := ""
  content : String := ""
  raw_content : String := ""
deriving DecidableEq, Repr

/-- Collaborators of `search_products_sorted`: the per-domain Tavily search
(`none` = the call raised, which the source skips) and the image-resolution
chain `_extract_image_from_result` + in-text fallback (network and
HTML-scraping work, irrelevant to ordering). -/
structure SearchEnv where
  tavilySearch : String → String → Option (List SearchResult)
  imageFor : SearchResult → String → Option String

/-- An entry of `valid_offers`. -/
structure Offer where
  name : String
  brand : Option String
  platform : String
  currentPrice : ℚ
  imageUrl : Option String
  deepLink : String
deriving DecidableEq, Repr

/-- An entry of the returned `data` list. -/
structure OfferView where
  productName : Option String
  brand : Option String
  platform : Option String
  price : Option ℚ
  imageUrl : Option String
  deepLink : Option String
deriving DecidableEq, Repr

structure SearchOut where
  success : Bool
  message : String
  data : List OfferView
deriving DecidableEq, Repr

def coreDomains : List String :=
  ["amazon.in", "flipkart.com", "myntra.com", "ajio.com"]

/-- The EMI-text filter of the main loop (plain substring checks). -/
def emiBlocked (lowerText : String) : Bool :=
  (["emi", "down payment", "monthly", "/month", "per month"].any fun k =>
    containsSub lowerText k) &&
  !(containsSub lowerText "no cost emi" || containsSub lowerText "full price")

/-- The main result loop of `search_products_sorted`: dedup by URL, platform
and URL-shape filters, query match, EMI filter, strict price parse (a result
with no in-range price is dropped entirely), image resolution. -/
def collectOffers (env : SearchEnv) (query : String) :
    List SearchResult → List String → List Offer
  | [], _ => []
  | r :: rest, seen =>
    if r.url ∈ seen then collectOffers env query rest seen
    else if lowerStr (platformFromUrl r.url) ∉ allowedPlatforms then
      collectOffers env query rest seen
    else if ¬ looksLikeProductUrl r.url then collectOffers env query rest seen
    else if ¬ productMatchesQuery r.title
        (if r.content ≠ "" then r.content else r.raw_content) query then
      collectOffers env query rest seen
    else if emiBlocked (lowerStr (r.title ++ " " ++
        (if r.content ≠ "" then r.content else r.raw_content))) then
      collectOffers env query rest seen
    else
      match (extractPriceFromText (r.title ++ " " ++
          (if r.content ≠ "" then r.content else r.raw_content))).bind
          priceStrToFloat with
      | none => collectOffers env query rest seen
      | some priceNum =>
        { name := r.title, brand := extractBrandFromTitle r.title,
          platform := platformFromUrl r.url, currentPrice := priceNum,
          imageUrl := env.imageFor r r.url, deepLink := r.url } ::
          collectOffers env query rest (r.url :: seen)

/-- The Python sort key `o.get("_price_num") or float("inf")` (every stored
price is in `[1000, 1000000]`, so the `or` never fires, but it is kept). -/
def offerKey (o : Offer) : WithTop ℚ :=
  if o.currentPrice ≠ 0 then (o.currentPrice : WithTop ℚ) else ⊤

/-- `list.sort(key=...)` compares keys with `≤`; the sort is stable, so the
stable `mergeSort` below produces exactly Python's ordering. -/
def offerLe (a b : Offer) : Bool := decide (offerKey a ≤ offerKey b)

/-- Python `int(...)` on a rational (truncation toward zero). -/
def pyTruncQ (q : ℚ) : ℤ := if 0 ≤ q then ⌊q⌋ else -⌊-q⌋

/-- The projection of a `valid_offers` entry into the returned `data` dict
(`str(...) if truthy else None` per field, `float(int(price))`). -/
def offerView (o : Offer) : OfferView :=
  { productName := if o.name ≠ "" then some o.name else none,
    brand := match o.brand with
      | some b => if b ≠ "" then some b else none
      | none => none,
    platform := if o.platform ≠ "" then some o.platform else none,
    price := some ((pyTruncQ o.currentPrice : ℤ) : ℚ),
    imageUrl := match o.imageUrl with
      | some i => if i ≠ "" then some i else none
      | none => none,
    deepLink := if o.deepLink ≠ "" then some o.deepLink else none }

/-- `search_products_sorted` (the `data` assembly): stable sort by price
ascending, truncate to `limit`, project the view fields. -/
def search_products_sorted (env : SearchEnv) (query : String) (limit : ℕ) :
    SearchOut :=
  let enhancedQuery := query ++ " price buy online India"
  let allResults := coreDomains.foldl
    (fun acc d => acc ++ ((env.tavilySearch enhancedQuery d).getD [])) []
  if allResults = [] then
    { success := false,
      message := "No results found for \x27" ++ query ++ "\x27", data := [] }
  else
    let validOffers := collectOffers env query allResults []
    if validOffers = [] then
      { success := false,
        message := "No matching products found for \x27" ++ query ++ "\x27",
        data := [] }
    else
      let sorted := validOffers.mergeSort offerLe
      let truncated := sorted.take limit
      { success := true,
        message := "Found " ++ toString truncated.length ++
          " products for \x27" ++ query ++ "\x27",
        data := truncated.map offerView }

/-- A throwaway collaborator environment for witnesses. -/
def witnessEnvA : PreviewEnv :=
  { defaultDomains := ["amazon.in"],
    resolve := fun _ _ => none,
    fetch := fun _ => (500, ""),
    findPdp := fun _ _ _ => none,
    extract := fun _ u => [("deep_link", .pstr u)] }

/-- A second, observably different collaborator environment. -/
def witnessEnvB : PreviewEnv :=
  { defaultDomains := ["flipkart.com"],
    resolve := fun _ _ => some "https://www.flipkart.com/p/itm1",
    fetch := fun _ => (200, "x"),
    findPdp := fun _ _ _ => none,
    extract := fun _ u =>
      [("deep_link", .pstr u), ("product_name", .pstr "iphone 15"),
       ("price_value", .pstr "₹79,999")] }

/-- The collaborator behaviour under which the floor is bypassed: the query
`"iphone15"` passes `validate_query` (its regex allows a missing space) but
misses the literal substring `"iphone 15"` that `min_expected_price_for_query`
looks for, so no floor is applied. -/
def floorBypassEnv : PreviewEnv :=
  { defaultDomains := [],
    resolve := fun _ _ => some "https://www.flipkart.com/p/itm12345",
    fetch := fun _ => (200, "x"),
    findPdp := fun _ _ _ => none,
    extract := fun _ u =>
      [("deep_link", .pstr u), ("product_name", .pstr "iphone 15"),
       ("price_value", .pstr "₹500")] }

/-- "Every value this dict stores is truthy" — the invariant the
structured-data tier maintains. -/
def allTruthy (out : PyDict) : Prop :=
  ∀ k v, dGet out k = some v → pvTruthy v = true

/-- For the C3 counterexample: a page with both a JSON-LD product name and an
`og:title`. -/
def cexSoup : Soup :=
  { ldjson := [some (.jobj [("@type", .jstr "Product"),
      ("name", .jstr "JsonLd Name")])],
    ogUrl := none, canonicalHref := none, ogTitle := some "Og Title",
    breadcrumbJoined := none, selTexts := [], titleString := none }

/-- Search results for the C7 counterexample: priced items 500 and 200 and
one unpriced item, all passing every other filter. -/
def cexSearchEnv : SearchEnv :=
  { tavilySearch := fun _ d =>
      if d = "amazon.in" then
        some [{ url := "https://www.amazon.in/dp/B0AAAAA",
                title := "iphone 15 deal ₹500" },
              { url := "https://www.amazon.in/dp/B0BBBBB",
                title := "iphone 15 deal ₹200" },
              { url := "https://www.amazon.in/dp/B0CCCCC",
                title := "iphone 15 deal" }]
      else some [],
    imageFor := fun _ _ => none }

/-! ## Theorems -/

/-! ### Shared helper lemmas -/

/-- `parse_price_strict` with a floor only returns amounts at or above it. -/
lemma parse_strict_ge (v : PVal) (f a : ℚ)
    (h : parse_price_strict v (some f) = some a) : f ≤ a := by
  unfold parse_price_strict at h
  cases hl : parse_price_loose v with
  | none => rw [hl] at h; exact absurd h (by simp)
  | some amt =>
    rw [hl] at h
    simp only at h
    by_cases hlt : amt < f
    · rw [if_pos hlt] at h; exact absurd h (by simp)
    · rw [if_neg hlt] at h
      cases h
      exact le_of_not_lt hlt

/-! ### C4: the three `is_correct_variant` cases -/

/-- C4 counterexample: the claim asserts
`is_correct_variant("iPhone 15", "iphone 15 pro") = false`, but the source
returns `True` there (a query that asks for a variant disables the
variant-rejection branch, and nothing requires the name to carry the
requested variant token). -/
theorem is_correct_variant_base_for_pro_query :
    is_correct_variant "iPhone 15" "iphone 15 pro" = true := by decide

/-- C4 (amended): `is_correct_variant("iPhone 15 Pro", "iphone 15")` is
false, `is_correct_variant("iPhone 15", "iphone 15 pro")` is true (missing
requested variant tokens are accepted), and
`is_correct_variant("iPhone 15", "iphone 15")` is true. -/
theorem is_correct_variant_three_cases :
    is_correct_variant "iPhone 15 Pro" "iphone 15" = false ∧
    is_correct_variant "iPhone 15" "iphone 15 pro" = true ∧
    is_correct_variant "iPhone 15" "iphone 15" = true := by
  refine ⟨by decide, by decide, by decide⟩

/-! ### C8: `parse_price_strict` floor semantics -/

/-- C8: with a floor set, `parse_price_strict` never returns an amount
strictly below it, and with no floor it coincides with
`parse_price_loose`. -/
theorem parse_price_strict_floor_semantics (v : PVal) :
    (∀ f a : ℚ, parse_price_strict v (some f) = some a → f ≤ a) ∧
    parse_price_strict v none = parse_price_loose v := by
  constructor
  · exact fun f a h => parse_strict_ge v f a h
  · unfold parse_price_strict
    cases parse_price_loose v <;> rfl

/-- C8 witness at `v = "₹45,999"`, floor `30000`. -/
theorem parse_price_strict_floor_semantics_witness : (30000 : ℚ) ≤ 45999 :=
  (parse_price_strict_floor_semantics (.pstr "₹45,999")).1 30000 45999 (by decide)

/-! ### C5: which stored price the drop flag compares against -/

/-- C5: every flow that can complete a successful update persists
`isPriceDropped = True` iff today's discovered lowest price is strictly
below the previously stored current price.  `update_single_product_lowest`
(the flow `update_products_lowest` iterates) compares exactly those two
values; the `update.py` flows never complete — their first read,
`product.last_lowest_price`, is an attribute the mapped `Product` class does
not define, so they raise before persisting anything. -/
theorem update_drop_flag_semantics (p : ProductRow) (bp : ℚ) (link : String) :
    (∀ old : ℚ, p.currentPrice = some old →
      ((applySingleUpdate p bp link).isPriceDropped = some true ↔ bp < old)) ∧
    (∀ (img : Option String) (plat : String),
      applyRefreshUpdate p bp img link plat = none) := by
  constructor
  · intro old hold
    unfold applySingleUpdate
    rw [hold]
    simp
  · intro img plat
    unfold applyRefreshUpdate productPriceAttr
    rfl

/-- C5 witness: stored current price 200, today's best 150, flag set. -/
theorem update_drop_flag_semantics_witness :
    (applySingleUpdate
      { currentPrice := some 200, lastLowestPrice := some 100 }
      150 "link").isPriceDropped = some true :=
  ((update_drop_flag_semantics
      { currentPrice := some 200, lastLowestPrice := some 100 }
      150 "link").1 200 rfl).2 (by norm_num)

/-! ### C6: accessory queries are rejected before any collaborator call -/

/-- C6: when the query itself is accessory-shaped, the pipeline returns the
structured `query_is_accessory` rejection with empty diagnostics, and the
result does not depend on the collaborators at all (URL resolver, fetcher,
extractor): two arbitrary environments give the identical result. -/
theorem preview_accessory_rejected_without_network (q : String)
    (hq : looks_like_accessory q = true) (doms : Option (List String))
    (e1 e2 : PreviewEnv) :
    preview_lowest_by_name e1 q doms = preview_lowest_by_name e2 q doms ∧
    (preview_lowest_by_name e1 q doms).status = "query_is_accessory" ∧
    (preview_lowest_by_name e1 q doms).details = [] := by
  unfold preview_lowest_by_name validate_query
  rw [hq]
  simp

/-- C6 witness: the accessory query `"iPhone 15 case"` under two different
environments. -/
theorem preview_accessory_rejected_without_network_witness :
    preview_lowest_by_name witnessEnvA "iPhone 15 case" none =
      preview_lowest_by_name witnessEnvB "iPhone 15 case" none ∧
    (preview_lowest_by_name witnessEnvA "iPhone 15 case" none).status =
      "query_is_accessory" :=
  ⟨(preview_accessory_rejected_without_network "iPhone 15 case" (by decide)
      none witnessEnvA witnessEnvB).1,
   (preview_accessory_rejected_without_network "iPhone 15 case" (by decide)
      none witnessEnvA witnessEnvB).2.1⟩

/-! ### C10: the loose parser on garbage strings -/

lemma ciPref_eq_drop (pat : String) (l : List Char) (r : List Char)
    (h : ciPref pat l = some r) : r = l.drop pat.data.length := by
  unfold ciPref at h
  split at h
  · cases h; rfl
  · exact absurd h (by simp)

lemma digitTokenAfter_none_of_no_digit (l r : List Char)
    (h : ∀ c ∈ l, c.isDigit = false) (hr : r.Sublist l) :
    digitTokenAfter r = none := by
  unfold digitTokenAfter
  cases hdw : r.dropWhile isSpaceChar with
  | nil => rfl
  | cons c rest =>
    have h1 : c ∈ r.dropWhile isSpaceChar := by
      rw [hdw]; exact List.mem_cons_self _ _
    have h2 : c ∈ r := List.Sublist.mem h1 (List.dropWhile_sublist _)
    simp [h c (List.Sublist.mem h2 hr)]

lemma matchCaseDot_sublist (r : List Char) :
    (match r with | '.' :: r2 => r2 | _ => r).Sublist r := by
  split
  · exact List.sublist_cons_self _ _
  · exact List.Sublist.refl _

lemma priceMarkerAt_sublist (l r : List Char) (h : priceMarkerAt l = some r) :
    r.Sublist l := by
  unfold priceMarkerAt at h
  rcases (Option.orElse_eq_some' _ _ _).mp h with h1 | ⟨-, h2⟩
  · rw [ciPref_eq_drop _ _ _ h1]; exact List.drop_sublist _ _
  · rcases (Option.orElse_eq_some' _ _ _).mp h2 with h3 | ⟨-, h4⟩
    · rw [ciPref_eq_drop _ _ _ h3]; exact List.drop_sublist _ _
    · rcases Option.map_eq_some'.mp h4 with ⟨r0, hr0, hmap⟩
      have hr0' : r0.Sublist l := by
        rw [ciPref_eq_drop _ _ _ hr0]; exact List.drop_sublist _ _
      exact hmap ▸ (matchCaseDot_sublist r0).trans hr0'

lemma priceRxMatchAt_none_of_no_digit (l : List Char)
    (h : ∀ c ∈ l, c.isDigit = false) : priceRxMatchAt l = none := by
  unfold priceRxMatchAt
  cases hm : priceMarkerAt l with
  | none => rfl
  | some r =>
    exact digitTokenAfter_none_of_no_digit l r h (priceMarkerAt_sublist l r hm)

lemma priceRxSearch_none_of_no_digit (l : List Char)
    (h : ∀ c ∈ l, c.isDigit = false) : priceRxSearch l = none := by
  induction l with
  | nil => rfl
  | cons c r ih =>
    unfold priceRxSearch
    rw [priceRxMatchAt_none_of_no_digit (c :: r) h]
    exact ih fun x hx => h x (List.mem_cons_of_mem c hx)

lemma splitOnChar_all_dots (l : List Char) (h : ∀ c ∈ l, c = '.') :
    splitOnChar '.' l = List.replicate (l.length + 1) [] := by
  induction l with
  | nil => rfl
  | cons c r ih =>
    unfold splitOnChar
    rw [if_pos (h c (List.mem_cons_self _ _)),
      ih fun x hx => h x (List.mem_cons_of_mem c hx)]
    rfl

/-- C10: a string with no digit at all (hence no currency-marked numeric
token either) makes `parse_price_loose` return `None`.  The embedding is a
total function into `Option ℚ`: every Python failure path (regex miss,
`float` `ValueError`) is the `none` result, never an exception. -/
theorem parse_price_loose_no_digit_is_none (s : String)
    (h : ∀ c ∈ s.data, c.isDigit = false) :
    parse_price_loose (.pstr s) = none := by
  show (match priceRxSearch s.data with
    | some g => some ((natDigitsVal (g.filter (· ≠ ',')) : ℚ))
    | none =>
      let digits := s.data.filter fun c => c.isDigit || c = '.'
      if digits = [] then none else parseFloatDigits digits) = none
  rw [priceRxSearch_none_of_no_digit s.data h]
  simp only
  set digits := s.data.filter fun c => c.isDigit || c = '.' with hdig
  by_cases hd : digits = []
  · simp [hd]
  · rw [if_neg hd]
    have hdots : ∀ c ∈ digits, c = '.' := by
      intro c hc
      have hmem := List.mem_of_mem_filter hc
      have hprop := List.of_mem_filter hc
      rcases Bool.or_eq_true_iff.mp hprop with h1 | h2
      · exact absurd h1 (by simp [h c hmem])
      · exact of_decide_eq_true h2
    cases hdig2 : digits with
    | nil => exact absurd hdig2 hd
    | cons a rest =>
      have ha : a = '.' := hdots a (by rw [hdig2]; exact List.mem_cons_self _ _)
      have hrest : ∀ c ∈ rest, c = '.' := fun c hc =>
        hdots c (by rw [hdig2]; exact List.mem_cons_of_mem a hc)
      subst ha
      unfold parseFloatDigits
      have hsp : splitOnChar '.' ('.' :: rest) = [] :: splitOnChar '.' rest := by
        rw [splitOnChar, if_pos rfl]
      rw [hsp, splitOnChar_all_dots rest hrest]
      cases rest with
      | nil => simp
      | cons b r2 => simp [List.replicate_succ]

/-- C10 witness on the garbage string `"no deal today!!"`. -/
theorem parse_price_loose_no_digit_is_none_witness :
    parse_price_loose (.pstr "no deal today!!") = none :=
  parse_price_loose_no_digit_is_none "no deal today!!" (by decide)

/-! ### Pipeline lemmas: first-minimum selection, diagnostics, floor -/

/-- The fold inside `_choose_lowest` (Python `min` with a key) picks the
first element attaining the minimum price: the pool splits around the result
with every earlier element strictly more expensive. -/
lemma foldlMin_first_min (r : List Cand) : ∀ a : Cand,
    ∃ l1 l2,
      a :: r = l1 ++ (r.foldl (fun b x => if x.2.1 < b.2.1 then x else b) a) :: l2 ∧
      (∀ y ∈ a :: r,
        (r.foldl (fun b x => if x.2.1 < b.2.1 then x else b) a).2.1 ≤ y.2.1) ∧
      (∀ y ∈ l1,
        (r.foldl (fun b x => if x.2.1 < b.2.1 then x else b) a).2.1 < y.2.1) := by
  induction r with
  | nil =>
    intro a
    exact ⟨[], [], rfl, by simp, by simp⟩
  | cons x r ih =>
    intro a
    simp only [List.foldl_cons]
    by_cases hx : x.2.1 < a.2.1
    · rw [if_pos hx]
      obtain ⟨l1, l2, heq, hmin, hfirst⟩ := ih x
      refine ⟨a :: l1, l2, by rw [List.cons_append, ← heq], ?_, ?_⟩
      · intro y hy
        rcases List.mem_cons.mp hy with hya | hyr
        · rw [hya]
          exact le_of_lt (lt_of_le_of_lt (hmin x (List.mem_cons_self _ _)) hx)
        · exact hmin y hyr
      · intro y hy
        rcases List.mem_cons.mp hy with hya | hyl
        · rw [hya]
          exact lt_of_le_of_lt (hmin x (List.mem_cons_self _ _)) hx
        · exact hfirst y hyl
    · rw [if_neg hx]
      have hax : a.2.1 ≤ x.2.1 := le_of_not_lt hx
      obtain ⟨l1, l2, heq, hmin, hfirst⟩ := ih a
      have hmin' : ∀ y ∈ a :: x :: r,
          (r.foldl (fun b x => if x.2.1 < b.2.1 then x else b) a).2.1 ≤ y.2.1 := by
        intro y hy
        rcases List.mem_cons.mp hy with hya | hyr
        · rw [hya]; exact hmin a (List.mem_cons_self _ _)
        · rcases List.mem_cons.mp hyr with hyx | hyr2
          · rw [hyx]
            exact le_trans (hmin a (List.mem_cons_self _ _)) hax
          · exact hmin y (List.mem_cons_of_mem a hyr2)
      cases l1 with
      | nil =>
        rw [List.nil_append] at heq
        injection heq with hb hl2
        refine ⟨[], x :: l2, ?_, hmin', by simp⟩
        rw [List.nil_append, ← hb, ← hl2]
      | cons h1 t1 =>
        rw [List.cons_append] at heq
        injection heq with hh1 hr
        refine ⟨a :: x :: t1, l2, ?_, hmin', ?_⟩
        · rw [List.cons_append, List.cons_append, ← hr]
        · intro y hy
          have hba : (r.foldl (fun b x => if x.2.1 < b.2.1 then x else b) a).2.1 < a.2.1 := by
            exact hh1.symm ▸ hfirst h1 (List.mem_cons_self _ _)
          rcases List.mem_cons.mp hy with hya | hyr
          · rw [hya]; exact hba
          · rcases List.mem_cons.mp hyr with hyx | hyt
            · rw [hyx]; exact lt_of_lt_of_le hba hax
            · exact hfirst y (List.mem_cons_of_mem h1 hyt)

/-- `_choose_lowest` characterisation. -/
lemma chooseLowest_first_min (l : List Cand) (c : Cand)
    (h : chooseLowest l = some c) :
    ∃ l1 l2, l = l1 ++ c :: l2 ∧ (∀ y ∈ l, c.2.1 ≤ y.2.1) ∧
      ∀ y ∈ l1, c.2.1 < y.2.1 := by
  cases l with
  | nil => exact absurd h (by simp [chooseLowest])
  | cons a r =>
    have hc : c = r.foldl (fun b x => if x.2.1 < b.2.1 then x else b) a := by
      have := h
      unfold chooseLowest at this
      exact (Option.some.injEq _ _ ▸ this).symm
    obtain ⟨l1, l2, heq, hmin, hfirst⟩ := foldlMin_first_min r a
    exact ⟨l1, l2, hc ▸ heq, hc ▸ hmin, hc ▸ hfirst⟩

lemma chooseLowest_mem (l : List Cand) (c : Cand) (h : chooseLowest l = some c) :
    c ∈ l := by
  obtain ⟨l1, l2, heq, -, -⟩ := chooseLowest_first_min l c h
  rw [heq]
  exact List.mem_append_right l1 (List.mem_cons_self _ _)

lemma chooseLowest_eq_none_iff (l : List Cand) :
    chooseLowest l = none ↔ l = [] := by
  cases l <;> simp [chooseLowest]

/-- Every per-domain diagnostic carries the domain it was produced for. -/
lemma pdpTarget_inl_domain (env : PreviewEnv) (d u0 : String) (det : Detail)
    (h : pdpTarget env d u0 = .inl det) : det.domain = d ∧ det.price = none := by
  unfold pdpTarget at h
  repeat' split at h
  all_goals first
    | (cases h; exact ⟨rfl, rfl⟩)
    | exact absurd h (by simp)

lemma fetchedStep_detail_domain (q : String) (f : Option ℚ) (d url : String)
    (data : PyDict) : (fetchedStep q f d url data).2.1.domain = d := by
  unfold fetchedStep
  repeat' first
    | rfl
    | (split <;> try rfl)
    | dsimp only

lemma stepDomain_detail_domain (env : PreviewEnv) (q : String) (f : Option ℚ)
    (d : String) (u : Option String) :
    (stepDomain env q f d u).2.1.domain = d := by
  unfold stepDomain
  split
  · rfl
  · split
    · rfl
    · split
      · next det hdet => exact (pdpTarget_inl_domain env d _ det hdet).1
      · split
        split
        · rfl
        · exact fetchedStep_detail_domain q f d _ _

/-- In a floored run, an accepted candidate and an `ok` diagnostic can only
carry a price at or above the floor (the strict parser enforced it). -/
lemma fetchedStep_floor (q : String) (f : ℚ) (d url : String) (data : PyDict) :
    (∀ c : Cand, (fetchedStep q (some f) d url data).1 = some c → f ≤ c.2.1) ∧
    (∀ p : ℚ, (fetchedStep q (some f) d url data).2.1.price = some p → f ≤ p) := by
  unfold fetchedStep
  dsimp only
  split
  · exact ⟨fun c hc => by simp at hc, fun p hp => by simp at hp⟩
  · split
    · exact ⟨fun c hc => by simp at hc, fun p hp => by simp at hp⟩
    · split
      · exact ⟨fun c hc => by simp at hc, fun p hp => by simp at hp⟩
      · split
        · exact ⟨fun c hc => by simp at hc, fun p hp => by simp at hp⟩
        · next p hp =>
          constructor
          · intro c hc
            cases hc
            exact parse_strict_ge _ _ _ hp
          · intro p' hp'
            simp only [Option.some.injEq] at hp'
            exact hp' ▸ parse_strict_ge _ _ _ hp

lemma stepDomain_floor (env : PreviewEnv) (q : String) (f : ℚ) (d : String)
    (u : Option String) :
    (∀ c : Cand, (stepDomain env q (some f) d u).1 = some c → f ≤ c.2.1) ∧
    (∀ p : ℚ, (stepDomain env q (some f) d u).2.1.price = some p → f ≤ p) := by
  unfold stepDomain
  split
  · exact ⟨fun c hc => by simp at hc, fun p hp => by simp at hp⟩
  · split
    · exact ⟨fun c hc => by simp at hc, fun p hp => by simp at hp⟩
    · split
      · next det hdet =>
        refine ⟨fun c hc => by simp at hc, fun p hp => ?_⟩
        rw [(pdpTarget_inl_domain env d _ det hdet).2] at hp
        exact absurd hp (by simp)
      · split
        split
        · exact ⟨fun c hc => by simp at hc, fun p hp => by simp at hp⟩
        · exact fetchedStep_floor q f d _ _

/-- Diagnostics come one per scanned domain, in iteration order. -/
lemma scanDomains_details_domains (env : PreviewEnv) (q : String)
    (f : Option ℚ) (l : List (String × Option String)) :
    ((scanDomains env q f l).2.1.map Detail.domain) = l.map Prod.fst := by
  induction l with
  | nil => rfl
  | cons du rest ih =>
    have hdom := stepDomain_detail_domain env q f du.1 du.2
    rcases hstep : stepDomain env q f du.1 du.2 with ⟨c?, det, nm⟩
    rcases hrest : scanDomains env q f rest with ⟨cs, ds, s⟩
    rw [hstep] at hdom
    rw [hrest] at ih
    unfold scanDomains
    rw [hstep, hrest]
    simp only [List.map_cons]
    rw [hdom, ih]

/-- In a floored scan, every collected candidate and every recorded
diagnostic price is at or above the floor. -/
lemma scanDomains_floor (env : PreviewEnv) (q : String) (f : ℚ)
    (l : List (String × Option String)) :
    (∀ c ∈ (scanDomains env q (some f) l).1, f ≤ c.2.1) ∧
    (∀ det ∈ (scanDomains env q (some f) l).2.1, ∀ p, det.price = some p →
      f ≤ p) := by
  induction l with
  | nil => exact ⟨by simp [scanDomains], by simp [scanDomains]⟩
  | cons du rest ih =>
    obtain ⟨hc, hd⟩ := stepDomain_floor env q f du.1 du.2
    rcases hstep : stepDomain env q (some f) du.1 du.2 with ⟨c?, det, nm⟩
    rcases hrest : scanDomains env q (some f) rest with ⟨cs, ds, s⟩
    rw [hstep] at hc hd
    rw [hrest] at ih
    obtain ⟨ihc, ihd⟩ := ih
    unfold scanDomains
    rw [hstep, hrest]
    constructor
    · intro c hcmem
      cases c? with
      | none => exact ihc c hcmem
      | some c0 =>
        rcases List.mem_cons.mp hcmem with hc0 | hcr
        · exact hc0 ▸ hc c0 rfl
        · exact ihc c hcr
    · intro det2 hdet p hp
      rcases List.mem_cons.mp hdet with hdet0 | hdetr
      · exact hd p (by rw [← hdet0]; exact hp)
      · exact ihd det2 hdetr p hp

/-- The validated branch of `preview_lowest_by_name`, written out. -/
lemma preview_validated_eq (env : PreviewEnv) (q : String)
    (doms? : Option (List String)) (hv : (validate_query q).1 = true) :
    preview_lowest_by_name env q doms? =
      (match chooseLowest (previewCore env q doms?).1 with
       | none =>
         { query := q, status := "no_deal",
           message := some "Can\x27t find a better deal right now.",
           product_name := (previewCore env q doms?).2.2,
           details := (previewCore env q doms?).2.1 }
       | some best =>
         { query := q, status := "ok",
           product_name := (previewCore env q doms?).2.2,
           selected_domain := some best.1, currentPrice := some best.2.1,
           deepLink := some best.2.2,
           details := (previewCore env q doms?).2.1 }) := by
  unfold preview_lowest_by_name
  rcases hval : validate_query q with ⟨ok, reason⟩
  rw [hval] at hv
  simp only at hv
  subst hv
  simp only [Bool.not_true, Bool.false_eq_true, if_false]
  rcases hcore : previewCore env q doms? with ⟨found, details, sample⟩
  cases chooseLowest found <;> rfl

/-- The rejected branch of `preview_lowest_by_name`. -/
lemma preview_rejected_eq (env : PreviewEnv) (q : String)
    (doms? : Option (List String)) (hv : (validate_query q).1 = false) :
    preview_lowest_by_name env q doms? =
      { query := q, status := (validate_query q).2,
        message := some (if (validate_query q).2 = "query_is_accessory" then
          "Your query looks like an accessory. Please search a phone model (e.g., \x27iPhone 15 128GB\x27)."
        else "Please include the phone model name (e.g., \x27iPhone 15\x27)."),
        details := [] } := by
  unfold preview_lowest_by_name
  rcases hval : validate_query q with ⟨ok, reason⟩
  rw [hval] at hv
  simp only at hv
  subst hv
  rfl

/-! ### C1: arg-min selection with first-seen tie-break -/

/-- C1: for a validated discovery call, an empty candidate pool yields
`no_deal`; a non-empty pool yields `ok` with `selected_domain`,
`currentPrice` and `deepLink` taken from the first candidate (in domain
iteration order) attaining the minimum price — every candidate costs at
least as much, and every candidate before the selected one costs strictly
more (the strict-`<` arg-min scan). -/
theorem preview_selects_first_minimum (env : PreviewEnv) (q : String)
    (doms? : Option (List String)) (hv : (validate_query q).1 = true) :
    ((previewCore env q doms?).1 = [] →
      (preview_lowest_by_name env q doms?).status = "no_deal") ∧
    ((previewCore env q doms?).1 ≠ [] →
      (preview_lowest_by_name env q doms?).status = "ok" ∧
      ∃ l1 c l2, (previewCore env q doms?).1 = l1 ++ c :: l2 ∧
        (preview_lowest_by_name env q doms?).selected_domain = some c.1 ∧
        (preview_lowest_by_name env q doms?).currentPrice = some c.2.1 ∧
        (preview_lowest_by_name env q doms?).deepLink = some c.2.2 ∧
        (∀ y ∈ (previewCore env q doms?).1, c.2.1 ≤ y.2.1) ∧
        (∀ y ∈ l1, c.2.1 < y.2.1)) := by
  rw [preview_validated_eq env q doms? hv]
  cases hch : chooseLowest (previewCore env q doms?).1 with
  | none =>
    have hempty := (chooseLowest_eq_none_iff _).mp hch
    exact ⟨fun _ => rfl, fun hne => absurd hempty hne⟩
  | some best =>
    constructor
    · intro hempty
      rw [hempty] at hch
      exact absurd hch (by simp [chooseLowest])
    · intro _
      refine ⟨rfl, ?_⟩
      obtain ⟨l1, l2, heq, hmin, hfirst⟩ :=
        chooseLowest_first_min (previewCore env q doms?).1 best hch
      exact ⟨l1, best, l2, heq, rfl, rfl, rfl, hmin, hfirst⟩

/-- C1 witness: one resolving domain with an accepted offer. -/
theorem preview_selects_first_minimum_witness :
    (preview_lowest_by_name witnessEnvB "iphone 15" (some ["flipkart.com"])).status
      = "ok" :=
  ((preview_selects_first_minimum witnessEnvB "iphone 15" (some ["flipkart.com"])
    (by decide)).2 (by decide)).1

/-! ### C2: one diagnostic per domain -/

/-- C2 counterexample: an accessory-shaped query is rejected with
`details = []`, so `len(details) = 0 ≠ 1 = len(domains)` — the claimed
equality fails exactly on early query rejection. -/
theorem preview_details_empty_on_rejection :
    (preview_lowest_by_name witnessEnvA "iPhone 15 case"
      (some ["amazon.in"])).details.length ≠
      (["amazon.in"] : List String).length := by decide

/-- C2 (amended): for a query that passes validation, the diagnostics list
has exactly one entry per *distinct* domain, in first-occurrence iteration
order (the resolver keys a dict by domain, so duplicates collapse); on early
query rejection the diagnostics list is empty. -/
theorem preview_details_one_per_domain (env : PreviewEnv) (q : String)
    (doms? : Option (List String)) (hv : (validate_query q).1 = true) :
    (preview_lowest_by_name env q doms?).details.map Detail.domain =
      dedupFirst (effectiveDomains env doms?) := by
  rw [preview_validated_eq env q doms? hv]
  have hdet : ∀ r : PreviewResult,
      (match chooseLowest (previewCore env q doms?).1 with
       | none =>
         { query := q, status := "no_deal",
           message := some "Can\x27t find a better deal right now.",
           product_name := (previewCore env q doms?).2.2,
           details := (previewCore env q doms?).2.1 }
       | some best =>
         { query := q, status := "ok",
           product_name := (previewCore env q doms?).2.2,
           selected_domain := some best.1, currentPrice := some best.2.1,
           deepLink := some best.2.2,
           details := (previewCore env q doms?).2.1 } : PreviewResult).details =
        (previewCore env q doms?).2.1 := by
    intro r
    cases chooseLowest (previewCore env q doms?).1 <;> rfl
  rw [hdet { query := q, status := "x" }]
  unfold previewCore
  rw [scanDomains_details_domains]
  unfold resolveUrlsAllSites
  rw [List.map_map]
  exact List.map_id'' (fun x => rfl) (dedupFirst (effectiveDomains env doms?))

/-- C2 witness: three domains with one duplicate give two diagnostics in
first-occurrence order. -/
theorem preview_details_one_per_domain_witness :
    (preview_lowest_by_name witnessEnvB "iphone 15"
      (some ["a.com", "b.com", "a.com"])).details.map Detail.domain =
      ["a.com", "b.com"] :=
  (preview_details_one_per_domain witnessEnvB "iphone 15"
    (some ["a.com", "b.com", "a.com"]) (by decide)).trans (by decide)

/-! ### C9: the implicit ≥ 30000 invariant -/

/-- C9 counterexample: the validated query `"iphone15"` yields an `ok`
result whose price 500 is far below 30000 — `validate_query` admits more
queries than `min_expected_price_for_query` floors. -/
theorem preview_floor_bypass :
    (preview_lowest_by_name floorBypassEnv "iphone15"
      (some ["flipkart.com"])).status = "ok" ∧
    (preview_lowest_by_name floorBypassEnv "iphone15"
      (some ["flipkart.com"])).currentPrice = some 500 ∧
    ¬ (30000 : ℚ) ≤ 500 := by
  refine ⟨by decide, by decide, by norm_num⟩

/-- C9 (amended): for every query whose lowercasing contains the literal
substring `"iphone 15"` (the condition the floor actually checks), every
`ok` diagnostic price and every `ok` result price is at least 30000. -/
theorem preview_floor_for_literal_iphone15 (env : PreviewEnv) (q : String)
    (doms? : Option (List String))
    (hq : containsSub (lowerStr q) "iphone 15" = true) :
    (∀ det ∈ (preview_lowest_by_name env q doms?).details,
      det.status = "ok" → ∀ p, det.price = some p → 30000 ≤ p) ∧
    (∀ p, (preview_lowest_by_name env q doms?).currentPrice = some p →
      30000 ≤ p) := by
  have hfl : min_expected_price_for_query q = some 30000 := by
    unfold min_expected_price_for_query
    simp [hq]
  have hcore : previewCore env q doms? =
      scanDomains env q (some 30000)
        (resolveUrlsAllSites env q (effectiveDomains env doms?)) := by
    unfold previewCore
    rw [hfl]
  obtain ⟨hfc, hfd⟩ := scanDomains_floor env q 30000
    (resolveUrlsAllSites env q (effectiveDomains env doms?))
  by_cases hv : (validate_query q).1 = true
  · rw [preview_validated_eq env q doms? hv]
    cases hch : chooseLowest (previewCore env q doms?).1 with
    | none =>
      constructor
      · intro det hdet _ p hp
        exact hfd det (by rw [← hcore]; exact hdet) p hp
      · intro p hp
        exact absurd hp (by simp)
    | some best =>
      constructor
      · intro det hdet _ p hp
        exact hfd det (by rw [← hcore]; exact hdet) p hp
      · intro p hp
        simp only [Option.some.injEq] at hp
        have hmem := chooseLowest_mem _ _ hch
        rw [hcore] at hmem
        exact hp ▸ hfc best hmem
  · have hv' : (validate_query q).1 = false := by
      cases h : (validate_query q).1
      · rfl
      · exact absurd h hv
    rw [preview_rejected_eq env q doms? hv']
    exact ⟨by simp, by simp⟩

/-- C9 witness for the amended floor invariant at an accepted 79999 offer. -/
theorem preview_floor_for_literal_iphone15_witness : (30000 : ℚ) ≤ 79999 :=
  (preview_floor_for_literal_iphone15 witnessEnvB "iphone 15"
    (some ["flipkart.com"]) (by decide)).2 79999 (by decide)

/-! ### C3: extractor tier order -/

lemma dGet_nil (k : String) : dGet [] k = none := rfl

lemma dGet_append (d e : PyDict) (k : String) :
    dGet (d ++ e) k = (dGet d k).or (dGet e k) := by
  unfold dGet
  rw [List.find?_append]
  cases d.find? (fun kv => kv.1 = k) <;> simp

lemma dGet_isSome_iff (d : PyDict) (k : String) :
    (d.find? (fun kv => kv.1 = k)).isSome = (dGet d k).isSome := by
  unfold dGet
  cases d.find? (fun kv => kv.1 = k) <;> rfl

lemma dGet_overwrite (k : String) (v : PVal) :
    ∀ d : PyDict, (d.find? (fun kv => kv.1 = k)).isSome →
      dGet (d.map fun kv => if kv.1 = k then (k, v) else kv) k = some v := by
  intro d
  induction d with
  | nil => intro h; simp at h
  | cons kv rest ih =>
    intro h
    by_cases hk : kv.1 = k
    · unfold dGet
      rw [List.map_cons, if_pos hk, List.find?_cons_of_pos _ (by simp)]
      rfl
    · unfold dGet
      rw [List.map_cons, if_neg hk, List.find?_cons_of_neg _ (by simp [hk])]
      apply ih
      rw [List.find?_cons_of_neg _ (by simp [hk])] at h
      exact h

lemma dGet_map_overwrite_ne (k k' : String) (v : PVal) (h : k' ≠ k) :
    ∀ d : PyDict,
      dGet (d.map fun kv => if kv.1 = k then (k, v) else kv) k' = dGet d k' := by
  intro d
  induction d with
  | nil => rfl
  | cons kv rest ih =>
    by_cases hk : kv.1 = k
    · unfold dGet
      rw [List.map_cons, if_pos hk,
        List.find?_cons_of_neg _ (by simp [Ne.symm h]),
        List.find?_cons_of_neg _ (by simp [hk, Ne.symm h])]
      exact ih
    · by_cases hk' : kv.1 = k'
      · unfold dGet
        rw [List.map_cons, if_neg hk,
          List.find?_cons_of_pos _ (by simp [hk']),
          List.find?_cons_of_pos _ (by simp [hk'])]
      · unfold dGet
        rw [List.map_cons, if_neg hk,
          List.find?_cons_of_neg _ (by simp [hk']),
          List.find?_cons_of_neg _ (by simp [hk'])]
        exact ih

lemma dGet_dSet_self (d : PyDict) (k : String) (v : PVal) :
    dGet (dSet d k v) k = some v := by
  unfold dSet
  by_cases h : (d.find? (fun kv => kv.1 = k)).isSome
  · rw [if_pos h]
    exact dGet_overwrite k v d h
  · rw [if_neg h, dGet_append]
    have hnone : dGet d k = none := by
      unfold dGet
      rw [Option.not_isSome_iff_eq_none.mp h]
      rfl
    rw [hnone]
    unfold dGet
    rw [List.find?_cons_of_pos _ (by simp)]
    rfl

lemma dGet_dSet_ne (d : PyDict) (k k' : String) (v : PVal) (h : k' ≠ k) :
    dGet (dSet d k v) k' = dGet d k' := by
  unfold dSet
  by_cases hf : (d.find? (fun kv => kv.1 = k)).isSome
  · rw [if_pos hf]
    exact dGet_map_overwrite_ne k k' v h d
  · rw [if_neg hf, dGet_append]
    have hsingle : dGet [(k, v)] k' = none := by
      unfold dGet
      rw [List.find?_cons_of_neg _ (by simp [Ne.symm h])]
      rfl
    rw [hsingle]
    cases dGet d k' <;> rfl

lemma dGet_dSetdefault_of_some (d : PyDict) (k : String) (v w : PVal)
    (h : dGet d k = some w) : dGet (dSetdefault d k v) k = some w := by
  unfold dSetdefault
  rw [if_pos (by rw [dGet_isSome_iff, h]; rfl)]
  exact h

lemma dGet_dSetdefault_of_none (d : PyDict) (k : String) (v : PVal)
    (h : dGet d k = none) : dGet (dSetdefault d k v) k = some v := by
  unfold dSetdefault
  rw [if_neg (by rw [dGet_isSome_iff, h]; simp), dGet_append, h]
  unfold dGet
  rw [List.find?_cons_of_pos _ (by simp)]
  rfl

lemma dGet_dSetdefault_ne (d : PyDict) (k k' : String) (v : PVal)
    (h : k' ≠ k) : dGet (dSetdefault d k v) k' = dGet d k' := by
  unfold dSetdefault
  by_cases hf : (d.find? (fun kv => kv.1 = k)).isSome
  · rw [if_pos hf]
  · rw [if_neg hf, dGet_append]
    have hsingle : dGet [(k, v)] k' = none := by
      unfold dGet
      rw [List.find?_cons_of_neg _ (by simp [Ne.symm h])]
      rfl
    rw [hsingle]
    cases dGet d k' <;> rfl

/-- `setdefault` folded over a list: an existing binding always wins, else
the first binding in the list. -/
lemma dGet_foldl_setdefault :
    ∀ (e d : PyDict) (k : String),
      dGet (e.foldl (fun o kv => dSetdefault o kv.1 kv.2) d) k =
        (dGet d k).or (dGet e k) := by
  intro e
  induction e with
  | nil =>
    intro d k
    rw [List.foldl_nil]
    cases dGet d k <;> rfl
  | cons kv rest ih =>
    intro d k
    rw [List.foldl_cons, ih (dSetdefault d kv.1 kv.2) k]
    by_cases hk : k = kv.1
    · subst hk
      cases hdk : dGet d kv.1 with
      | some w =>
        rw [dGet_dSetdefault_of_some _ _ _ _ hdk]
        simp
      | none =>
        rw [dGet_dSetdefault_of_none _ _ _ hdk]
        have hcons : dGet (kv :: rest) kv.1 = some kv.2 := by
          unfold dGet
          rw [List.find?_cons_of_pos _ (by simp)]
          rfl
        rw [hcons]
        simp
    · rw [dGet_dSetdefault_ne _ _ _ _ hk]
      have : dGet (kv :: rest) k = dGet rest k := by
        unfold dGet
        rw [List.find?_cons_of_neg _ (by simp [Ne.symm hk])]
      rw [this]

/-- `dict.update` with unique-keyed `e`: `e`'s binding wins. -/
lemma dGet_dUpdate_nodup :
    ∀ (e : PyDict), (e.map Prod.fst).Nodup → ∀ (d : PyDict) (k : String),
      dGet (dUpdate d e) k = (dGet e k).or (dGet d k) := by
  intro e
  induction e with
  | nil =>
    intro _ d k
    unfold dUpdate
    rw [List.foldl_nil]
    cases dGet d k <;> rfl
  | cons kv rest ih =>
    intro hnd d k
    rw [List.map_cons, List.nodup_cons] at hnd
    obtain ⟨hknotin, hnd'⟩ := hnd
    show dGet (dUpdate (dSet d kv.1 kv.2) rest) k = _
    rw [ih hnd' (dSet d kv.1 kv.2) k]
    by_cases hk : k = kv.1
    · subst hk
      have hr : dGet rest kv.1 = none := by
        unfold dGet
        rw [List.find?_eq_none.mpr]
        · rfl
        · intro x hx hpx
          exact hknotin (List.mem_map.mpr ⟨x, hx, of_decide_eq_true hpx⟩)
      rw [hr, dGet_dSet_self]
      have hcons : dGet (kv :: rest) kv.1 = some kv.2 := by
        unfold dGet
        rw [List.find?_cons_of_pos _ (by simp)]
        rfl
      rw [hcons]
      rfl
    · rw [dGet_dSet_ne _ _ _ _ hk]
      have : dGet (kv :: rest) k = dGet rest k := by
        unfold dGet
        rw [List.find?_cons_of_neg _ (by simp [Ne.symm hk])]
      rw [this]


/-- The metadata tier stores at most one binding per key. -/
lemma meta_nodup (soup : Soup) :
    ((metaUrlsNameCategory soup).map Prod.fst).Nodup := by
  unfold metaUrlsNameCategory
  rcases soup.ogUrl with _ | c1 <;> rcases soup.canonicalHref with _ | c2 <;>
    rcases soup.ogTitle with _ | c3 <;> rcases soup.breadcrumbJoined with _ | c4 <;>
    dsimp only <;> (try split_ifs) <;> simp [dSet, List.find?]

/-- The metadata tier's `product_name` is exactly the nonempty `og:title`
content. -/
lemma meta_product_name (soup : Soup) :
    dGet (metaUrlsNameCategory soup) "product_name" =
      (match soup.ogTitle with
       | some c => if c = "" then none else some (.pstr c)
       | none => none) := by
  unfold metaUrlsNameCategory
  rcases soup.ogUrl with _ | c1 <;> rcases soup.canonicalHref with _ | c2 <;>
    rcases soup.ogTitle with _ | c3 <;> rcases soup.breadcrumbJoined with _ | c4 <;>
    dsimp only <;> (try split_ifs) <;> simp [dSet, dGet, List.find?] <;> simp_all

/-- The metadata tier never sets a price. -/
lemma meta_price_none (soup : Soup) :
    dGet (metaUrlsNameCategory soup) "price_value" = none := by
  unfold metaUrlsNameCategory
  rcases soup.ogUrl with _ | c1 <;> rcases soup.canonicalHref with _ | c2 <;>
    rcases soup.ogTitle with _ | c3 <;> rcases soup.breadcrumbJoined with _ | c4 <;>
    dsimp only <;> (try split_ifs) <;> simp [dSet, dGet, List.find?]

/-- A truthy JSON value is stored as a truthy Python value. -/
lemma jTruthy_toPVal (v : JVal) (h : jTruthy v = true) :
    pvTruthy (jvalToPVal v) = true := by
  cases v with
  | jnull => exact absurd h (by simp [jTruthy])
  | jbool b =>
    cases b
    · exact absurd h (by simp [jTruthy])
    · simp [jvalToPVal, pvTruthy]
  | jnum q => simpa [jTruthy, jvalToPVal, pvTruthy] using h
  | jstr s => simpa [jTruthy, jvalToPVal, pvTruthy] using h
  | jarr l =>
    simp only [jvalToPVal, pvTruthy]
    rw [pyReprJ]
    rw [decide_eq_true_iff]
    intro hempty
    have hd := congrArg String.data hempty
    rw [String.data_append, String.data_append] at hd
    simp at hd
  | jobj kvs =>
    simp only [jvalToPVal, pvTruthy]
    rw [pyReprJ]
    rw [decide_eq_true_iff]
    intro hempty
    have hd := congrArg String.data hempty
    rw [String.data_append, String.data_append] at hd
    simp at hd

lemma allTruthy_nil : allTruthy [] := by
  intro k v h
  simp [dGet] at h

lemma allTruthy_dSet (out : PyDict) (k : String) (v : PVal)
    (hv : pvTruthy v = true) (hP : allTruthy out) : allTruthy (dSet out k v) := by
  intro k' v' h
  by_cases hk : k' = k
  · subst hk
    rw [dGet_dSet_self] at h
    cases h
    exact hv
  · rw [dGet_dSet_ne _ _ _ _ hk] at h
    exact hP k' v' h

lemma optTruthy_some (p : Option JVal) (h : (p.map jTruthy).getD false = true) :
    ∃ w, p = some w ∧ jTruthy w = true := by
  cases p with
  | none => exact absurd h (by simp)
  | some w => exact ⟨w, rfl, by simpa using h⟩

lemma offerPrice_truthy (o : JVal) (w : JVal) (h : offerPrice o = some w) :
    jTruthy w = true := by
  unfold offerPrice at h
  cases o with
  | jobj od =>
    simp only at h
    split at h
    · next hcond =>
      obtain ⟨w', hw', ht⟩ := optTruthy_some _ hcond
      rw [hw'] at h
      cases h
      exact ht
    · exact absurd h (by simp)
  | jnull => exact absurd h (by simp)
  | jbool b => exact absurd h (by simp)
  | jnum q => exact absurd h (by simp)
  | jstr s => exact absurd h (by simp)
  | jarr l => exact absurd h (by simp)

lemma foldl_jmin_mem : ∀ (l : List JVal) (c : JVal),
    l.foldl (fun m x => if jLt x m then x else m) c ∈ c :: l := by
  intro l
  induction l with
  | nil => intro c; simp
  | cons x r ih =>
    intro c
    rw [List.foldl_cons]
    by_cases h : jLt x c
    · rw [if_pos h]
      rcases List.mem_cons.mp (ih x) with h1 | h2
      · rw [h1]; simp
      · exact List.mem_cons_of_mem _ (List.mem_cons_of_mem _ h2)
    · rw [if_neg h]
      rcases List.mem_cons.mp (ih c) with h1 | h2
      · rw [h1]; simp
      · exact List.mem_cons_of_mem _ (List.mem_cons_of_mem _ h2)

lemma jMinList_mem (c : JVal) (l : List JVal) : jMinList c l ∈ c :: l :=
  foldl_jmin_mem l c

/-- One structured-data node keeps the all-truthy invariant. -/
lemma jsonldNodeStep_allTruthy (out : PyDict) (node : JVal)
    (hP : allTruthy out) : allTruthy (jsonldNodeStep out node) := by
  unfold jsonldNodeStep
  cases node with
  | jobj kvs =>
    simp only
    split
    · have hP1 : allTruthy
          (match jGet kvs "name" with
           | some nv =>
             if jTruthy nv then dSet out "product_name" (jvalToPVal nv) else out
           | none => out) := by
        cases hn : jGet kvs "name" with
        | none => exact hP
        | some nv =>
          by_cases ht : jTruthy nv
          · simp only [ht, if_true]
            exact allTruthy_dSet _ _ _ (jTruthy_toPVal nv ht) hP
          · simp only [ht, if_false]
            exact hP
      cases ho : jGet kvs "offers" with
      | none => exact hP1
      | some ov =>
        cases ov with
        | jobj offs =>
          simp only
          split
          · next hcond =>
            obtain ⟨w, hw, ht⟩ := optTruthy_some _ hcond
            rw [hw]
            exact allTruthy_dSet _ _ _ (jTruthy_toPVal w ht) hP1
          · exact hP1
        | jarr loffs =>
          simp only
          split
          · exact hP1
          · next v vs hvals =>
            have hmem := jMinList_mem v vs
            rw [← hvals] at hmem
            obtain ⟨o, -, ho2⟩ := List.mem_filterMap.mp hmem
            exact allTruthy_dSet _ _ _
              (jTruthy_toPVal _ (offerPrice_truthy o _ ho2)) hP1
        | jnull => exact hP1
        | jbool b => exact hP1
        | jnum q => exact hP1
        | jstr s => exact hP1
    · exact hP
  | jnull => exact hP
  | jbool b => exact hP
  | jnum q => exact hP
  | jstr s => exact hP
  | jarr l => exact hP

lemma jsonldOffersPrice_allTruthy (soup : Soup) :
    allTruthy (jsonldOffersPrice soup) := by
  unfold jsonldOffersPrice
  have hnodes : ∀ (nodes : List JVal) (out : PyDict), allTruthy out →
      allTruthy (nodes.foldl jsonldNodeStep out) := by
    intro nodes
    induction nodes with
    | nil => intro out h; exact h
    | cons n rest ih =>
      intro out h
      rw [List.foldl_cons]
      exact ih _ (jsonldNodeStep_allTruthy out n h)
  have hscripts : ∀ (scripts : List (Option JVal)) (out : PyDict),
      allTruthy out →
      allTruthy (scripts.foldl
        (fun out sc =>
          match sc with
          | none => out
          | some data =>
            let nodes := match data with | .jarr l => l | v => [v]
            nodes.foldl jsonldNodeStep out) out) := by
    intro scripts
    induction scripts with
    | nil => intro out h; exact h
    | cons sc rest ih =>
      intro out h
      rw [List.foldl_cons]
      cases sc with
      | none => exact ih out h
      | some data => exact ih _ (hnodes _ out h)
  exact hscripts soup.ldjson [] allTruthy_nil

lemma findSome?_prop {α β : Type} (p : β → Prop) (f : α → Option β)
    (hf : ∀ a b, f a = some b → p b) :
    ∀ (l : List α) (t : β), l.findSome? f = some t → p t := by
  intro l
  induction l with
  | nil => intro t h; simp at h
  | cons a r ih =>
    intro t h
    rw [List.findSome?_cons] at h
    split at h
    · next b heq =>
      cases h
      exact hf a _ heq
    · exact ih t h

lemma selTextProbe_ne (a : Option String) (b : String)
    (h : (match a with
      | some t => if t ≠ "" then some t else none
      | none => none) = some b) : b ≠ "" := by
  cases a with
  | none => simp at h
  | some s =>
    by_cases hs : s = ""
    · subst hs
      simp at h
    · rw [show (match some s with
          | some t => if t ≠ "" then some t else none
          | none => none) = (if s ≠ "" then some s else none) from rfl,
        if_pos hs] at h
      injection h with h2
      rw [← h2]
      exact hs

lemma selText_findSome_ne (l : List (Option String)) (t : String)
    (h : l.findSome?
      (fun t? => match t? with
        | some t => if t ≠ "" then some t else none
        | none => none) = some t) : t ≠ "" :=
  findSome?_prop (fun x => x ≠ "") _ (fun a b hab => selTextProbe_ne a b hab) l t h

/-- The visible-price tier yields nothing or a single nonempty raw price
string. -/
lemma fallback_cases (soup : Soup) :
    fallbackVisiblePrice soup = [] ∨
    ∃ t : String, t ≠ "" ∧
      fallbackVisiblePrice soup = [("price_value", .pstr t)] := by
  unfold fallbackVisiblePrice
  cases h : soup.selTexts.findSome?
      (fun t? => match t? with
        | some t => if t ≠ "" then some t else none
        | none => none) with
  | none => exact Or.inl rfl
  | some t => exact Or.inr ⟨t, selText_findSome_ne _ t h, rfl⟩

lemma extractMid_product_name (soup : Soup) (url : String) :
    dGet (extractMid soup url) "product_name" =
      (dGet (metaUrlsNameCategory soup) "product_name").or
        (dGet (jsonldOffersPrice soup) "product_name") := by
  unfold extractMid
  rw [dGet_foldl_setdefault,
    dGet_dUpdate_nodup _ (meta_nodup soup)]
  have h1 : dGet [("deep_link", .pstr url)] "product_name" = none := by
    unfold dGet
    rw [List.find?_cons_of_neg _ (by simp)]
    rfl
  rw [h1]
  cases dGet (metaUrlsNameCategory soup) "product_name" <;> rfl

lemma extractMid_price_value (soup : Soup) (url : String) :
    dGet (extractMid soup url) "price_value" =
      dGet (jsonldOffersPrice soup) "price_value" := by
  unfold extractMid
  rw [dGet_foldl_setdefault,
    dGet_dUpdate_nodup _ (meta_nodup soup), meta_price_none]
  have h1 : dGet [("deep_link", .pstr url)] "price_value" = none := by
    unfold dGet
    rw [List.find?_cons_of_neg _ (by simp)]
    rfl
  rw [h1]
  cases dGet (jsonldOffersPrice soup) "price_value" <;> rfl

/-- Any name the first two tiers set is truthy. -/
lemma extractMid_name_truthy (soup : Soup) (url : String) (v : PVal)
    (h : dGet (extractMid soup url) "product_name" = some v) :
    pvTruthy v = true := by
  rw [extractMid_product_name] at h
  cases hm : dGet (metaUrlsNameCategory soup) "product_name" with
  | some w =>
    rw [hm] at h
    have hwv : w = v := by
      change some w = some v at h
      injection h
    rw [meta_product_name] at hm
    cases hog : soup.ogTitle with
    | none =>
      rw [hog] at hm
      change (none : Option PVal) = some w at hm
      exact absurd hm (by simp)
    | some c =>
      rw [hog] at hm
      change (if c = "" then none else some (PVal.pstr c)) = some w at hm
      by_cases hc : c = ""
      · rw [if_pos hc] at hm
        exact absurd hm (by simp)
      · rw [if_neg hc] at hm
        injection hm with hm2
        rw [← hwv, ← hm2]
        simpa [pvTruthy] using hc
  | none =>
    rw [hm] at h
    simp only [Option.none_or] at h
    exact jsonldOffersPrice_allTruthy soup "product_name" v h

/-- Any price the structured-data tier set is truthy, hence neither `None`
nor the empty string. -/
lemma jd_price_not_blank (soup : Soup) (v : PVal)
    (h : dGet (jsonldOffersPrice soup) "price_value" = some v) :
    (v == PVal.pnone || v == PVal.pstr "") = false := by
  have ht := jsonldOffersPrice_allTruthy soup "price_value" v h
  cases v with
  | pnone => exact absurd ht (by simp [pvTruthy])
  | pnum q => rfl
  | pstr s =>
    have : s ≠ "" := by simpa [pvTruthy] using ht
    simp [this]

lemma extractPriced_price_value (soup : Soup) (url : String) :
    dGet (extractPriced soup url) "price_value" =
      (dGet (jsonldOffersPrice soup) "price_value").or
        (dGet (fallbackVisiblePrice soup) "price_value") := by
  simp only [extractPriced]
  split
  · next hcond =>
    have hjdnone : dGet (jsonldOffersPrice soup) "price_value" = none := by
      cases hjd : dGet (jsonldOffersPrice soup) "price_value" with
      | none => rfl
      | some v =>
        rw [(extractMid_price_value soup url).trans hjd] at hcond
        change (v == PVal.pnone || v == PVal.pstr "") = true at hcond
        rw [jd_price_not_blank soup v hjd] at hcond
        exact absurd hcond (by simp)
    rw [hjdnone]
    rcases fallback_cases soup with hf | ⟨t, ht, hf⟩
    · rw [hf]
      show dGet (extractMid soup url) "price_value" = _
      rw [extractMid_price_value, hjdnone]
      rfl
    · rw [hf, dGet_dUpdate_nodup _ (by simp)]
      have hone : dGet [("price_value", PVal.pstr t)] "price_value" =
          some (.pstr t) := by
        unfold dGet
        rw [List.find?_cons_of_pos _ (by simp)]
        rfl
      rw [hone]
      rfl
  · next hcond =>
    rw [extractMid_price_value]
    cases hjd : dGet (jsonldOffersPrice soup) "price_value" with
    | some v => rfl
    | none =>
      exfalso
      apply hcond
      rw [(extractMid_price_value soup url).trans hjd]

lemma extractPriced_product_name (soup : Soup) (url : String) :
    dGet (extractPriced soup url) "product_name" =
      dGet (extractMid soup url) "product_name" := by
  simp only [extractPriced]
  split
  · rcases fallback_cases soup with hf | ⟨t, ht, hf⟩
    · rw [hf]
      rfl
    · rw [hf, dGet_dUpdate_nodup _ (by simp)]
      have : dGet [("price_value", PVal.pstr t)] "product_name" = none := by
        unfold dGet
        rw [List.find?_cons_of_neg _ (by simp)]
        rfl
      rw [this]
      cases dGet (extractMid soup url) "product_name" <;> rfl
  · rfl

/-- C3 counterexample: with both a JSON-LD product name and an `og:title`
present, the extractor returns the `og:title` — the metadata tier runs
*before* the structured-data tier (plain `update` first, `setdefault`
second), not after it as the claim states. -/
theorem extract_metadata_overrides_jsonld :
    dGet (extract_from_html cexSoup "u") "product_name" =
      some (.pstr "Og Title") ∧
    dGet (jsonldOffersPrice cexSoup) "product_name" =
      some (.pstr "JsonLd Name") ∧
    ("Og Title" : String) ≠ "JsonLd Name" := by
  refine ⟨by decide, by decide, by decide⟩

/-- C3 (amended): the tier order of `extract_from_html` is: metadata first
(its nonempty `og:title` becomes `product_name`), then structured data
filling only fields the metadata left unset, then the visible-price scan
exactly when the first two tiers produced no truthy price, then the document
title exactly when no truthy name was set. -/
theorem extract_tier_precedence (soup : Soup) (url : String) :
    dGet (extract_from_html soup url) "price_value" =
      (dGet (jsonldOffersPrice soup) "price_value").or
        (dGet (fallbackVisiblePrice soup) "price_value") ∧
    dGet (extract_from_html soup url) "product_name" =
      ((dGet (metaUrlsNameCategory soup) "product_name").or
        ((dGet (jsonldOffersPrice soup) "product_name").or
          (match soup.titleString with
           | some t => if t = "" then none else some (.pstr (pyStrip t))
           | none => none))) ∧
    dGet (metaUrlsNameCategory soup) "product_name" =
      (match soup.ogTitle with
       | some c => if c = "" then none else some (.pstr c)
       | none => none) := by
  refine ⟨?_, ?_, meta_product_name soup⟩
  · simp only [extract_from_html]
    split
    · cases soup.titleString with
      | none => exact extractPriced_price_value soup url
      | some t =>
        show dGet (if t ≠ "" then
            dSet (extractPriced soup url) "product_name" (PVal.pstr (pyStrip t))
          else extractPriced soup url) "price_value" = _
        by_cases ht : t = ""
        · rw [if_neg (by simp [ht])]
          exact extractPriced_price_value soup url
        · rw [if_pos ht, dGet_dSet_ne _ _ _ _ (by simp)]
          exact extractPriced_price_value soup url
    · exact extractPriced_price_value soup url
  · simp only [extract_from_html]
    split
    · next hcond =>
      have hnone : dGet (extractPriced soup url) "product_name" = none := by
        cases hm : dGet (extractPriced soup url) "product_name" with
        | none => rfl
        | some v =>
          rw [hm] at hcond
          change (!pvTruthy v) = true at hcond
          have ht := extractMid_name_truthy soup url v
            (by rw [← extractPriced_product_name]; exact hm)
          rw [ht] at hcond
          exact absurd hcond (by simp)
      have hmetajd : (dGet (metaUrlsNameCategory soup) "product_name").or
          (dGet (jsonldOffersPrice soup) "product_name") = none := by
        rw [← extractMid_product_name soup url,
          ← extractPriced_product_name soup url]
        exact hnone
      rw [← Option.or_assoc, hmetajd]
      cases soup.titleString with
      | none => exact hnone
      | some t =>
        show dGet (if t ≠ "" then
            dSet (extractPriced soup url) "product_name" (PVal.pstr (pyStrip t))
          else extractPriced soup url) "product_name" =
          (none : Option PVal).or (if t = "" then none else some (.pstr (pyStrip t)))
        by_cases ht : t = ""
        · rw [if_neg (by simp [ht]), if_pos ht]
          exact hnone
        · rw [if_pos ht, if_neg ht, dGet_dSet_self]
          rfl
    · next hcond =>
      obtain ⟨v, hv⟩ : ∃ v,
          dGet (extractPriced soup url) "product_name" = some v := by
        cases hm : dGet (extractPriced soup url) "product_name" with
        | none =>
          exfalso
          apply hcond
          rw [hm]
        | some v => exact ⟨v, rfl⟩
      have hv' : (dGet (metaUrlsNameCategory soup) "product_name").or
          (dGet (jsonldOffersPrice soup) "product_name") = some v := by
        rw [← extractMid_product_name soup url,
          ← extractPriced_product_name soup url]
        exact hv
      rw [hv, ← Option.or_assoc, hv']
      rfl

/-! ### C7: aggregator ordering and truncation -/

lemma priceStrToFloat_range (s : String) (p : ℚ)
    (h : priceStrToFloat s = some p) : 1000 ≤ p ∧ p ≤ 1000000 := by
  unfold priceStrToFloat at h
  split at h
  · exact absurd h (by simp)
  · split at h
    · exact absurd h (by simp)
    · split at h
      · exact absurd h (by simp)
      · split at h
        · next hrange =>
          cases h
          exact hrange
        · exact absurd h (by simp)

set_option maxHeartbeats 1000000 in

/-- Every collected offer carries an in-range price. -/
lemma collectOffers_price_range (env : SearchEnv) (q : String) :
    ∀ (rs : List SearchResult) (seen : List String) (o : Offer),
      o ∈ collectOffers env q rs seen →
      1000 ≤ o.currentPrice ∧ o.currentPrice ≤ 1000000 := by
  intro rs
  induction rs with
  | nil => intro seen o h; simp [collectOffers] at h
  | cons r rest ih =>
    intro seen o h
    unfold collectOffers at h
    repeat' split at h
    all_goals try exact ih _ o h
    all_goals
      rename_i p hp
      rcases List.mem_cons.mp h with ho | hrest
      · obtain ⟨ps, hps1, hps⟩ := Option.bind_eq_some.mp hp
        rw [ho]
        exact priceStrToFloat_range ps p hps
      · exact ih _ o hrest

lemma offerLe_trans (a b c : Offer) (h1 : offerLe a b = true)
    (h2 : offerLe b c = true) : offerLe a c = true := by
  unfold offerLe at h1 h2 ⊢
  exact decide_eq_true (le_trans (of_decide_eq_true h1) (of_decide_eq_true h2))

lemma offerLe_total (a b : Offer) : (offerLe a b || offerLe b a) = true := by
  unfold offerLe
  rcases le_total (offerKey a) (offerKey b) with h | h
  · simp [h]
  · simp [h]

/-- Key of an in-range offer is its price. -/
lemma offerKey_of_range (o : Offer) (h : 1000 ≤ o.currentPrice) :
    offerKey o = (o.currentPrice : WithTop ℚ) := by
  unfold offerKey
  rw [if_pos]
  intro h0
  rw [h0] at h
  norm_num at h

/-- Sortedness, truncation and price-range of the assembled `data` list for
an arbitrary pool of in-range offers. -/
lemma offersView_props (offers : List Offer)
    (hrange : ∀ o ∈ offers, 1000 ≤ o.currentPrice ∧ o.currentPrice ≤ 1000000)
    (limit : ℕ) :
    (((offers.mergeSort offerLe).take limit).map offerView).length ≤ limit ∧
    List.Pairwise
      (fun a b : OfferView => ∀ pa pb : ℚ,
        a.price = some pa → b.price = some pb → pa ≤ pb)
      (((offers.mergeSort offerLe).take limit).map offerView) ∧
    ∀ o ∈ ((offers.mergeSort offerLe).take limit).map offerView,
      ∃ p : ℚ, o.price = some p ∧ 1000 ≤ p ∧ p ≤ 1000000 := by
  have hmemrange : ∀ o ∈ (offers.mergeSort offerLe).take limit,
      1000 ≤ o.currentPrice ∧ o.currentPrice ≤ 1000000 := by
    intro o ho
    exact hrange o (((offers.mergeSort_perm offerLe).mem_iff).mp
      (List.Sublist.mem ho (List.take_sublist _ _)))
  have hviewprice : ∀ o : Offer,
      1000 ≤ o.currentPrice → o.currentPrice ≤ 1000000 →
      ∃ p : ℚ, (offerView o).price = some p ∧ 1000 ≤ p ∧ p ≤ 1000000 := by
    intro o h1 h2
    refine ⟨((pyTruncQ o.currentPrice : ℤ) : ℚ), rfl, ?_, ?_⟩
    · have hpos : (0 : ℚ) ≤ o.currentPrice := le_trans (by norm_num) h1
      unfold pyTruncQ
      rw [if_pos hpos]
      have : (1000 : ℤ) ≤ ⌊o.currentPrice⌋ := Int.le_floor.mpr (by exact_mod_cast h1)
      exact_mod_cast this
    · have hpos : (0 : ℚ) ≤ o.currentPrice := le_trans (by norm_num) h1
      unfold pyTruncQ
      rw [if_pos hpos]
      calc ((⌊o.currentPrice⌋ : ℤ) : ℚ) ≤ o.currentPrice := Int.floor_le _
        _ ≤ 1000000 := h2
  refine ⟨?_, ?_, ?_⟩
  · rw [List.length_map]
    have := List.length_take limit (offers.mergeSort offerLe)
    rw [this]
    exact min_le_left _ _
  · rw [List.pairwise_map]
    have hsorted : List.Pairwise (fun a b => offerLe a b = true)
        (offers.mergeSort offerLe) :=
      List.sorted_mergeSort offerLe_trans offerLe_total offers
    have htrunc : List.Pairwise (fun a b => offerLe a b = true)
        ((offers.mergeSort offerLe).take limit) :=
      List.Pairwise.sublist (List.take_sublist _ _) hsorted
    refine List.Pairwise.imp_of_mem ?_ htrunc
    intro a b ha hb hle pa pb hpa hpb
    obtain ⟨ha1, ha2⟩ := hmemrange a ha
    obtain ⟨hb1, hb2⟩ := hmemrange b hb
    have hkey : (a.currentPrice : WithTop ℚ) ≤ (b.currentPrice : WithTop ℚ) := by
      rw [← offerKey_of_range a ha1, ← offerKey_of_range b hb1]
      exact of_decide_eq_true hle
    have hq : a.currentPrice ≤ b.currentPrice := by exact_mod_cast hkey
    have hpa' : pa = ((pyTruncQ a.currentPrice : ℤ) : ℚ) := by
      have : (offerView a).price = some ((pyTruncQ a.currentPrice : ℤ) : ℚ) := rfl
      rw [this] at hpa
      exact (Option.some.injEq _ _ ▸ hpa.symm : _)
    have hpb' : pb = ((pyTruncQ b.currentPrice : ℤ) : ℚ) := by
      have : (offerView b).price = some ((pyTruncQ b.currentPrice : ℤ) : ℚ) := rfl
      rw [this] at hpb
      exact (Option.some.injEq _ _ ▸ hpb.symm : _)
    rw [hpa', hpb']
    have hposa : (0 : ℚ) ≤ a.currentPrice := le_trans (by norm_num) ha1
    have hposb : (0 : ℚ) ≤ b.currentPrice := le_trans (by norm_num) hb1
    unfold pyTruncQ
    rw [if_pos hposa, if_pos hposb]
    exact_mod_cast Int.floor_le_floor hq
  · intro o ho
    obtain ⟨o0, ho0, hview⟩ := List.mem_map.mp ho
    obtain ⟨h1, h2⟩ := hmemrange o0 ho0
    rw [← hview]
    exact hviewprice o0 h1 h2

/-- C7 counterexample: given priced items [500, 200] and one unpriced item,
the returned `data` is empty — not the claimed `[200, 500, unpriced]`
ordering of length 3.  Unpriced results are skipped entirely, and 500/200
are rejected by the 1000–1000000 sanity range inside the price parser. -/
theorem search_sorted_drops_unpriced_and_small :
    (search_products_sorted cexSearchEnv "iphone 15" 15).data = [] ∧
    (search_products_sorted cexSearchEnv "iphone 15" 15).data.length ≠ 3 := by
  refine ⟨by decide, by decide⟩

/-- C7 (amended): `data` is sorted by parsed price ascending and truncated
to the caller's limit after sorting; results whose price does not parse
within the sanity range 1000–1000000 (including unpriced results) are
excluded from `data` entirely, so every returned entry carries an in-range
price. -/
theorem search_sorted_truncated_all_priced (env : SearchEnv) (q : String)
    (limit : ℕ) :
    (search_products_sorted env q limit).data.length ≤ limit ∧
    List.Pairwise
      (fun a b : OfferView => ∀ pa pb : ℚ,
        a.price = some pa → b.price = some pb → pa ≤ pb)
      (search_products_sorted env q limit).data ∧
    ∀ o ∈ (search_products_sorted env q limit).data,
      ∃ p : ℚ, o.price = some p ∧ 1000 ≤ p ∧ p ≤ 1000000 := by
  simp only [search_products_sorted]
  split
  · exact ⟨by simp, by simp, by simp⟩
  · split
    · exact ⟨by simp, by simp, by simp⟩
    · exact offersView_props _
        (fun o ho => collectOffers_price_range env q _ [] o ho) limit

/-- C7 witness at a concrete environment. -/
theorem search_sorted_truncated_all_priced_witness :
    (search_products_sorted cexSearchEnv "iphone 15" 15).data.length ≤ 15 :=
  (search_sorted_truncated_all_priced cexSearchEnv "iphone 15" 15).1

end DealSpy
